import Mathlib

/-!
Verification of the discrete-event alert/cancellation simulator
(`src/project1/project1.py`) against its specification.

The Python source is shallowly embedded: machine data are `Int`/`Nat`,
Python dictionaries are association lists observed through first-match
lookup, the `heapq` priority queue is a bag of `(time, seq, Event)`
entries popped at the lexicographically least `(time, seq)` key (the
sequence numbers are unique, so the `Event` component is never compared,
exactly as in the source), and the unbounded `while` loop is given an
explicit fuel parameter (`none` means the fuel ran out before the loop
finished).  Transcript lines are built as structured `Entry` values and
rendered to the exact strings the Python f-strings produce.
-/

namespace Project1

/-- `EventKind` from the source: the four event tags of the simulator. -/
inductive EventKind
  | raiseAlert
  | raiseCancel
  | recvAlert
  | recvCancel
deriving DecidableEq, Repr

/-- The frozen `Event` dataclass: `time`, `kind`, `device`, `desc`, and an
optional `src` (source device for received messages, defaulting to none). -/
structure Event where
  time : Int
  kind : EventKind
  device : Int
  desc : String
  src : Option Int := none
deriving DecidableEq, Repr

/-- `SimulationConfig`: horizon `length`, propagation topology
(`from` device to its ordered list of `(to, delay)` edges, as an
association list standing for the Python dict), and the initial events. -/
structure SimulationConfig where
  length : Int
  propagate : List (Int × List (Int × Int))
  initialEvents : List Event
deriving DecidableEq, Repr

/-- `cfg.propagate.get(device, [])`: first-match association lookup with
an empty default, as on the Python dict (whose keys are unique). -/
def lookupProp (p : List (Int × List (Int × Int))) (d : Int) : List (Int × Int) :=
  match p.find? (fun e => e.1 == d) with
  | some e => e.2
  | none => []

/-- The `cancel_time` two-level dict, flattened to an association list from
`(device, desc)` to the recorded time; it is only ever observed through
`lookupCancel`, matching the `get`-based access in the source. -/
abbrev Ledger := List ((Int × String) × Int)

/-- `cancel_time.get(device, \x7b\x7d).get(desc)`: the stored cancellation
time for `(device, desc)`, if any. -/
def lookupCancel (L : Ledger) (device : Int) (desc : String) : Option Int :=
  match L.find? (fun e => e.1.1 == device && e.1.2 == desc) with
  | some e => some e.2
  | none => none

/-- `cancelled_before(device, desc, t)`: true iff a time is stored for
`(device, desc)` and it is strictly less than `t`. -/
def cancelledBefore (L : Ledger) (device : Int) (desc : String) (t : Int) : Bool :=
  match lookupCancel L device desc with
  | some prev => decide (prev < t)
  | none => false

/-- `record_cancel(device, desc, t)`: store `t` when nothing is stored yet
or when `t` is smaller than the stored time (`if desc not in d or t < d[desc]`).
The in-place dict write is modelled by prepending the updated binding, which
shadows any older one under first-match lookup. -/
def recordCancel (L : Ledger) (device : Int) (desc : String) (t : Int) : Ledger :=
  match lookupCancel L device desc with
  | none => ((device, desc), t) :: L
  | some prev => if t < prev then ((device, desc), t) :: L else L

/-- One structured transcript line; rendering it yields the exact string
the corresponding Python f-string produces. -/
inductive Entry
  | sentAlert (t : Int) (device dst : Int) (desc : String)
  | recvAlert (t : Int) (device : Int) (src : Option Int) (desc : String)
  | sentCancel (t : Int) (device dst : Int) (desc : String)
  | recvCancel (t : Int) (device : Int) (src : Option Int) (desc : String)
  | endLine (t : Int)
deriving DecidableEq, Repr

/-- The timestamp a transcript line carries. -/
def Entry.time : Entry → Int
  | .sentAlert t _ _ _ => t
  | .recvAlert t _ _ _ => t
  | .sentCancel t _ _ _ => t
  | .recvCancel t _ _ _ => t
  | .endLine t => t

/-- Whether a line is the terminal END line. -/
def Entry.isEnd : Entry → Bool
  | .endLine _ => true
  | _ => false

/-- How Python interpolates `ev.src` (an `Optional[int]`) into an f-string. -/
def renderSrc : Option Int → String
  | some n => toString n
  | none => "None"

/-- The f-strings of the source, reproduced character for character. -/
def Entry.render : Entry → String
  | .sentAlert t d dst desc =>
      "@" ++ toString t ++ ": #" ++ toString d ++ " SENT ALERT TO #" ++
        toString dst ++ ": " ++ desc
  | .recvAlert t d src desc =>
      "@" ++ toString t ++ ": #" ++ toString d ++ " RECEIVED ALERT FROM #" ++
        renderSrc src ++ ": " ++ desc
  | .sentCancel t d dst desc =>
      "@" ++ toString t ++ ": #" ++ toString d ++ " SENT CANCELLATION TO #" ++
        toString dst ++ ": " ++ desc
  | .recvCancel t d src desc =>
      "@" ++ toString t ++ ": #" ++ toString d ++ " RECEIVED CANCELLATION FROM #" ++
        renderSrc src ++ ": " ++ desc
  | .endLine t => "@" ++ toString t ++ ": END"

/-- The mutable state of `_run_simulation`: the heap (a bag of
`(time, seq, Event)` entries), the `itertools.count()` counter, the
cancellation ledger, and the transcript built so far. -/
structure SimState where
  heap : List (Int × Nat × Event)
  nextSeq : Nat
  ledger : Ledger
  out : List Entry
deriving Repr

/-- `heapq.heappush(heap, (t, next(seq), ev))`. -/
def pushEvent (s : SimState) (t : Int) (ev : Event) : SimState :=
  { s with heap := (t, s.nextSeq, ev) :: s.heap, nextSeq := s.nextSeq + 1 }

/-- The heap order on queue entries: by time, then by sequence number
(sequence numbers are unique, so the event itself is never compared). -/
def entryLe (a b : Int × Nat × Event) : Bool :=
  decide (a.1 < b.1) || (a.1 == b.1 && decide (a.2.1 ≤ b.2.1))

/-- `heapq.heappop`: remove and return the entry with the least
`(time, seq)` key, together with the remaining entries. -/
def popMin : List (Int × Nat × Event) →
    Option ((Int × Nat × Event) × List (Int × Nat × Event))
  | [] => none
  | x :: xs =>
    match popMin xs with
    | none => some (x, [])
    | some (m, rest) =>
      if entryLe x m then some (x, m :: rest) else some (m, x :: rest)

/-- The `for (to, delay) in cfg.propagate.get(device, [])` loop of the
two alert branches: append a SENT ALERT line and enqueue the matching
RECV_ALERT event, for each outgoing edge in order. -/
def propagateAlert (cfg : SimulationConfig) (t : Int) (device : Int) (desc : String)
    (s : SimState) : SimState :=
  (lookupProp cfg.propagate device).foldl
    (fun s e =>
      pushEvent { s with out := s.out ++ [Entry.sentAlert t device e.1 desc] }
        (t + e.2)
        { time := t + e.2, kind := .recvAlert, device := e.1, desc := desc,
          src := some device })
    s

/-- The `for (to, delay) in cfg.propagate.get(device, [])` loop of the
two cancellation branches: append a SENT CANCELLATION line and enqueue the
matching RECV_CANCEL event, for each outgoing edge in order. -/
def propagateCancel (cfg : SimulationConfig) (t : Int) (device : Int) (desc : String)
    (s : SimState) : SimState :=
  (lookupProp cfg.propagate device).foldl
    (fun s e =>
      pushEvent { s with out := s.out ++ [Entry.sentCancel t device e.1 desc] }
        (t + e.2)
        { time := t + e.2, kind := .recvCancel, device := e.1, desc := desc,
          src := some device })
    s

/-- The kind dispatch of the loop body of `_run_simulation`, for one popped
event `ev` with heap key time `t`. -/
def handleEvent (cfg : SimulationConfig) (t : Int) (ev : Event) (s : SimState) :
    SimState :=
  match ev.kind with
  | .raiseAlert =>
    if cancelledBefore s.ledger ev.device ev.desc t then s
    else propagateAlert cfg t ev.device ev.desc s
  | .raiseCancel =>
    let s1 : SimState := { s with ledger := recordCancel s.ledger ev.device ev.desc t }
    if cancelledBefore s1.ledger ev.device ev.desc t then s1
    else propagateCancel cfg t ev.device ev.desc s1
  | .recvAlert =>
    let s1 : SimState := { s with out := s.out ++ [Entry.recvAlert t ev.device ev.src ev.desc] }
    if cancelledBefore s1.ledger ev.device ev.desc t then s1
    else propagateAlert cfg t ev.device ev.desc s1
  | .recvCancel =>
    let s1 : SimState := { s with out := s.out ++ [Entry.recvCancel t ev.device ev.src ev.desc] }
    let already := cancelledBefore s1.ledger ev.device ev.desc t
    let s2 : SimState := { s1 with ledger := recordCancel s1.ledger ev.device ev.desc t }
    if already then s2
    else propagateCancel cfg t ev.device ev.desc s2

/-- The `while heap:` loop, with explicit fuel.  `none` means the fuel ran
out; `some s` is the state when the loop left (queue exhausted, or an event
with `t >= cfg.length` was popped and discarded). -/
def runLoop (cfg : SimulationConfig) : Nat → SimState → Option SimState
  | 0, _ => none
  | fuel + 1, s =>
    match popMin s.heap with
    | none => some s
    | some (e, rest) =>
      if cfg.length ≤ e.1 then some { s with heap := rest }
      else runLoop cfg fuel (handleEvent cfg e.1 e.2.2 { s with heap := rest })

/-- The state before the loop: every initial event pushed in order, empty
ledger, empty transcript. -/
def initState (cfg : SimulationConfig) : SimState :=
  cfg.initialEvents.foldl (fun s ev => pushEvent s ev.time ev)
    { heap := [], nextSeq := 0, ledger := [], out := [] }

/-- `_run_simulation` at the structured level: the loop transcript with the
terminal END line appended at the configured horizon. -/
def runEntries (cfg : SimulationConfig) (fuel : Nat) : Option (List Entry) :=
  (runLoop cfg fuel (initState cfg)).map (fun s => s.out ++ [Entry.endLine cfg.length])

/-- `_run_simulation`: the list of transcript strings it returns. -/
def runSimulation (cfg : SimulationConfig) (fuel : Nat) : Option (List String) :=
  (runEntries cfg fuel).map (fun es => es.map Entry.render)

/-! ### Derived definitions used by the proofs -/

/-- The queue entries the alert propagation loop pushes (newest first, as
each push prepends), starting from sequence number `n`. -/
def alertPushes (t : Int) (device : Int) (desc : String) :
    Nat → List (Int × Int) → List (Int × Nat × Event)
  | _, [] => []
  | n, e :: es =>
    alertPushes t device desc (n + 1) es ++
      [(t + e.2, n,
        { time := t + e.2, kind := .recvAlert, device := e.1, desc := desc,
          src := some device })]

/-- The queue entries the cancellation propagation loop pushes (newest
first), starting from sequence number `n`. -/
def cancelPushes (t : Int) (device : Int) (desc : String) :
    Nat → List (Int × Int) → List (Int × Nat × Event)
  | _, [] => []
  | n, e :: es =>
    cancelPushes t device desc (n + 1) es ++
      [(t + e.2, n,
        { time := t + e.2, kind := .recvCancel, device := e.1, desc := desc,
          src := some device })]

/-- The invariant behind flood-once for cancellations: every SENT
CANCELLATION line already written for `(d, m)` is covered by a ledger
entry no later than its timestamp, every pending heap entry is no earlier
than any such line, and any two such lines for the same pair share one
timestamp. -/
def cancelInv (s : SimState) : Prop :=
  (∀ (t d dst : Int) (m : String), Entry.sentCancel t d dst m ∈ s.out →
     (∃ v, lookupCancel s.ledger d m = some v ∧ v ≤ t) ∧
     (∀ x ∈ s.heap, t ≤ x.1)) ∧
  (∀ (t1 t2 d dst1 dst2 : Int) (m : String),
     Entry.sentCancel t1 d dst1 m ∈ s.out →
     Entry.sentCancel t2 d dst2 m ∈ s.out → t1 = t2)

/-- A configuration with non-negative horizon and non-negative (namely
zero) propagation delays on a two-device cycle, with one initial alert:
the engine loop never terminates on it. -/
def cfgDiv : SimulationConfig :=
  { length := 100, propagate := [(1, [(2, 0)]), (2, [(1, 0)])],
    initialEvents := [ { time := 0, kind := .raiseAlert, device := 1, desc := "x" } ] }

/-- The total number of propagation edges in the topology. -/
def totalEdges (cfg : SimulationConfig) : Nat :=
  (cfg.propagate.map (fun p => p.2.length)).sum

/-- The weight of one queue entry: exponential in how far its time still is
from the horizon. -/
def entryWeight (cfg : SimulationConfig) (x : Int × Nat × Event) : Nat :=
  (totalEdges cfg + 1) ^ (cfg.length - x.1).toNat

/-- The termination measure: total weight of the pending queue. -/
def heapMeasure (cfg : SimulationConfig) (s : SimState) : Nat :=
  (s.heap.map (entryWeight cfg)).sum

/-- The scenario configuration of claim C7: topology `1 -> 2` with delay 3,
horizon 100, an alert raised by device 1 at time 0 and a cancellation
raised by device 1 at time 1, both for description `fire`. -/
def cfgC7 : SimulationConfig :=
  { length := 100, propagate := [(1, [(2, 3)])],
    initialEvents :=
      [ { time := 0, kind := .raiseAlert, device := 1, desc := "fire" },
        { time := 1, kind := .raiseCancel, device := 1, desc := "fire" } ] }

/-- The transcript claim C7 expects for `cfgC7`. -/
def transcriptC7 : List String :=
  [ "@0: #1 SENT ALERT TO #2: fire",
    "@1: #1 SENT CANCELLATION TO #2: fire",
    "@3: #2 RECEIVED ALERT FROM #1: fire",
    "@4: #2 RECEIVED CANCELLATION FROM #1: fire",
    "@100: END" ]

/-- A simulation state whose ledger already records time 5 for
device 1 and description `fire`. -/
def stW4 : SimState := { heap := [], nextSeq := 0, ledger := [((1, "fire"), 5)], out := [] }

/-- A throwaway received-alert event used in the scheduler witness. -/
def evW6 : Event := { time := 0, kind := .recvAlert, device := 1, desc := "w", src := none }

/-- A minimal configuration with no devices and no events, horizon 5. -/
def cfgW9 : SimulationConfig := { length := 5, propagate := [], initialEvents := [] }

/-- The empty simulation state. -/
def stW10 : SimState := { heap := [], nextSeq := 0, ledger := [], out := [] }

/-! ### The input parser (`_parse_input_lines`)

Python string primitives are modelled structurally over the character
list of the string, so that every parsing function is kernel-computable:
`pyStrip` is `str.strip()`, `splitWs` is `str.split()` (split on
whitespace runs, no empty parts), and `parseInt` is `int()` on an
optionally signed decimal numeral (digit-group underscores are not
modelled; no claim depends on them).  Whitespace is Python's: the
`pyIsSpace` predicate reproduces CPython's `Py_UNICODE_ISSPACE` set, so
characters such as vertical tab, form feed, NEL and no-break space
separate words and strip away exactly as `str.split()` and `str.strip()`
treat them. -/

/-- The characters Python's `str.split()` / `str.strip()` treat as
whitespace: ASCII control whitespace 0x09-0x0d, the file/group/record/unit
separators 0x1c-0x1f, space, NEL 0x85, no-break space 0xa0, and the
Unicode space characters 0x1680, 0x2000-0x200a, 0x2028, 0x2029, 0x202f,
0x205f and 0x3000. -/
def pyIsSpace (c : Char) : Bool :=
  (0x09 ≤ c.toNat && c.toNat ≤ 0x0d) ||
  (0x1c ≤ c.toNat && c.toNat ≤ 0x1f) ||
  c.toNat = 0x20 || c.toNat = 0x85 || c.toNat = 0xa0 || c.toNat = 0x1680 ||
  (0x2000 ≤ c.toNat && c.toNat ≤ 0x200a) ||
  c.toNat = 0x2028 || c.toNat = 0x2029 || c.toNat = 0x202f ||
  c.toNat = 0x205f || c.toNat = 0x3000

/-- `str.strip()`: drop leading and trailing whitespace. -/
def pyStrip (s : String) : String :=
  ⟨((s.data.dropWhile pyIsSpace).reverse.dropWhile pyIsSpace).reverse⟩

/-- `line.startswith("#")`. -/
def startsHash (s : String) : Bool :=
  match s.data with
  | [] => false
  | c :: _ => c = '#'

def wordsAux : List Char → List Char → List String
  | [], acc => if acc.isEmpty then [] else [⟨acc.reverse⟩]
  | c :: cs, acc =>
    if pyIsSpace c then
      (if acc.isEmpty then [] else [⟨acc.reverse⟩]) ++ wordsAux cs []
    else wordsAux cs (c :: acc)

/-- `line.split()`: the whitespace-separated words of the line. -/
def splitWs (s : String) : List String := wordsAux s.data []

def digitsToNat (l : List Char) : Nat :=
  l.foldl (fun acc c => acc * 10 + (c.toNat - ('0').toNat)) 0

/-- `int(s)`: optional surrounding whitespace, optional sign, decimal
digits; anything else raises (returns `none`).  Digit-group underscores
and non-ASCII decimal digits are not modelled; no claim depends on the
success of a numeral conversion. -/
def parseInt (s : String) : Option Int :=
  match (pyStrip s).data with
  | [] => none
  | c :: rest =>
    let neg : Bool := c = '-'
    let ds : List Char := if c = '-' || c = '+' then rest else c :: rest
    if ds.isEmpty || !(ds.all Char.isDigit) then none
    else some (if neg then -(digitsToNat ds : Int) else (digitsToNat ds : Int))

/-- The accumulator of the parsing loop: `length`, the `devices` set (as a
deduplicated list), the `propagate` defaultdict (association list in
first-touch order), and the initial events in input order. -/
structure ParseState where
  length : Option Int
  devices : List Int
  propagate : List (Int × List (Int × Int))
  initial : List Event
deriving Repr

/-- `parts[i]` (IndexError when out of range). -/
def getPart (parts : List String) (i : Nat) : Except String String :=
  match parts.get? i with
  | some p => Except.ok p
  | none => Except.error ("IndexError")

/-- `int(parts[i])` (IndexError or ValueError on failure). -/
def getInt (parts : List String) (i : Nat) : Except String Int :=
  match getPart parts i with
  | Except.error e => Except.error e
  | Except.ok p =>
    match parseInt p with
    | some v => Except.ok v
    | none => Except.error ("ValueError")

/-- `devices.add(d)` (a Python set: ignore duplicates). -/
def addDevice (ds : List Int) (d : Int) : List Int :=
  if d ∈ ds then ds else ds ++ [d]

/-- `propagate[frm].append((to, delay))` on the defaultdict. -/
def addEdge (P : List (Int × List (Int × Int))) (frm : Int) (e : Int × Int) :
    List (Int × List (Int × Int)) :=
  match P with
  | [] => [(frm, [e])]
  | (k, es) :: rest =>
    if k = frm then (k, es ++ [e]) :: rest else (k, es) :: addEdge rest frm e

/-- The guard of the loop body: `if not line or line.startswith("#"):
continue` on the stripped line. -/
def skipLine (raw : String) : Bool :=
  pyStrip raw = "" || startsHash (pyStrip raw)

/-- The body of the `for raw in lines` loop of `_parse_input_lines`. -/
def parseLine (st : ParseState) (raw : String) : Except String ParseState :=
  if skipLine raw then Except.ok st
  else
    match splitWs (pyStrip raw) with
    | [] => Except.error ("IndexError")
    | tag :: rest =>
      if tag = "LENGTH" then
        match getInt (tag :: rest) 1 with
        | Except.error e => Except.error e
        | Except.ok v => Except.ok { st with length := some v }
      else if tag = "DEVICE" then
        match getInt (tag :: rest) 1 with
        | Except.error e => Except.error e
        | Except.ok d => Except.ok { st with devices := addDevice st.devices d }
      else if tag = "PROPAGATE" then
        match getInt (tag :: rest) 1 with
        | Except.error e => Except.error e
        | Except.ok frm =>
          match getInt (tag :: rest) 2 with
          | Except.error e => Except.error e
          | Except.ok dst =>
            match getInt (tag :: rest) 3 with
            | Except.error e => Except.error e
            | Except.ok delay =>
              Except.ok { st with propagate := addEdge st.propagate frm (dst, delay) }
      else if tag = "ALERT" then
        match getInt (tag :: rest) 1 with
        | Except.error e => Except.error e
        | Except.ok dev =>
          match getPart (tag :: rest) 2 with
          | Except.error e => Except.error e
          | Except.ok dsc =>
            match getInt (tag :: rest) 3 with
            | Except.error e => Except.error e
            | Except.ok t =>
              Except.ok { st with initial := st.initial ++
                [{ time := t, kind := .raiseAlert, device := dev, desc := dsc }] }
      else if tag = "CANCEL" then
        match getInt (tag :: rest) 1 with
        | Except.error e => Except.error e
        | Except.ok dev =>
          match getPart (tag :: rest) 2 with
          | Except.error e => Except.error e
          | Except.ok dsc =>
            match getInt (tag :: rest) 3 with
            | Except.error e => Except.error e
            | Except.ok t =>
              Except.ok { st with initial := st.initial ++
                [{ time := t, kind := .raiseCancel, device := dev, desc := dsc }] }
      else Except.error ("Unknown line: " ++ pyStrip raw)

/-- `propagate.setdefault(d, [])` for every seen device, then the final
`SimulationConfig` (or the `Missing LENGTH` error). -/
def parseInputLines (lines : List String) : Except String SimulationConfig :=
  match lines.foldlM parseLine
      { length := none, devices := [], propagate := [], initial := [] } with
  | Except.error e => Except.error e
  | Except.ok st =>
    match st.length with
    | none => Except.error ("Missing LENGTH")
    | some len =>
      Except.ok
        { length := len,
          propagate := st.devices.foldl (fun P d =>
            if (P.find? (fun p => p.1 == d)).isSome then P else P ++ [(d, [])])
            st.propagate,
          initialEvents := st.initial }

/-- `main` after the file has been read: parse, then (only on success) run
the simulation; a parse error reaches the caller and the engine is never
invoked. -/
def mainSim (lines : List String) (fuel : Nat) : Except String (Option (List String)) :=
  match parseInputLines lines with
  | Except.error e => Except.error e
  | Except.ok cfg => Except.ok (runSimulation cfg fuel)

/-- A line the parsing loop does not skip: nonempty after stripping and not
a comment. -/
def effectiveLine (raw : String) : Bool := !(skipLine raw)

/-- The tag of a line: its first whitespace-separated word. -/
def tagOf (raw : String) : String := (splitWs (pyStrip raw)).headD ("")

/-- The five line tags the parser recognises. -/
def knownTags : List String := ["LENGTH", "DEVICE", "PROPAGATE", "ALERT", "CANCEL"]

/-! ### Heap lemmas -/

theorem entryLe_refl (a : Int × Nat × Event) : entryLe a a = true := by
  simp [entryLe]

theorem entryLe_total (a b : Int × Nat × Event) :
    entryLe a b = true ∨ entryLe b a = true := by
  simp only [entryLe, Bool.or_eq_true, Bool.and_eq_true, decide_eq_true_eq, beq_iff_eq]
  omega

theorem entryLe_trans {a b c : Int × Nat × Event}
    (hab : entryLe a b = true) (hbc : entryLe b c = true) : entryLe a c = true := by
  simp only [entryLe, Bool.or_eq_true, Bool.and_eq_true, decide_eq_true_eq,
    beq_iff_eq] at hab hbc ⊢
  omega

theorem entryLe_time {a b : Int × Nat × Event} (h : entryLe a b = true) :
    a.1 ≤ b.1 := by
  simp only [entryLe, Bool.or_eq_true, Bool.and_eq_true, decide_eq_true_eq,
    beq_iff_eq] at h
  omega

theorem entryLe_seq {a b : Int × Nat × Event} (h : entryLe a b = true)
    (ht : a.1 = b.1) : a.2.1 ≤ b.2.1 := by
  simp only [entryLe, Bool.or_eq_true, Bool.and_eq_true, decide_eq_true_eq,
    beq_iff_eq] at h
  omega

theorem popMin_nil : popMin [] = none := rfl

theorem popMin_isSome (x : Int × Nat × Event) (xs : List (Int × Nat × Event)) :
    (popMin (x :: xs)).isSome := by
  rw [popMin]
  cases popMin xs with
  | none => rfl
  | some p =>
    obtain ⟨m, rest⟩ := p
    by_cases h : entryLe x m <;> simp [h]

/-- The popped entry together with the remaining entries is a permutation of
the heap contents. -/
theorem popMin_perm :
    ∀ (h : List (Int × Nat × Event)) (m : Int × Nat × Event)
      (rest : List (Int × Nat × Event)),
      popMin h = some (m, rest) → h.Perm (m :: rest) := by
  intro h
  induction h with
  | nil => intro m rest hmr; simp [popMin] at hmr
  | cons x xs ih =>
    intro m rest hmr
    rw [popMin] at hmr
    cases hx : popMin xs with
    | none =>
      rw [hx] at hmr
      obtain ⟨rfl, rfl⟩ : x = m ∧ [] = rest := by
        constructor <;> (cases hmr; rfl)
      have hxs : xs = [] := by
        cases xs with
        | nil => rfl
        | cons y ys => have := popMin_isSome y ys; rw [hx] at this; cases this
      rw [hxs]
    | some p =>
      obtain ⟨m1, r1⟩ := p
      rw [hx] at hmr
      have hmr2 : (if entryLe x m1 then some (x, m1 :: r1) else some (m1, x :: r1)) =
          some (m, rest) := hmr
      have hperm := ih m1 r1 hx
      by_cases hle : entryLe x m1
      · rw [if_pos hle] at hmr2
        obtain ⟨rfl, rfl⟩ : x = m ∧ m1 :: r1 = rest := by
          constructor <;> (cases hmr2; rfl)
        exact hperm.cons x
      · rw [if_neg hle] at hmr2
        obtain ⟨rfl, rfl⟩ : m1 = m ∧ x :: r1 = rest := by
          constructor <;> (cases hmr2; rfl)
        exact (hperm.cons x).trans (List.Perm.swap m1 x r1)

/-- The popped entry is minimal for the `(time, seq)` order among all heap
contents: this is exactly the `heapq` pop contract. -/
theorem popMin_min :
    ∀ (h : List (Int × Nat × Event)) (m : Int × Nat × Event)
      (rest : List (Int × Nat × Event)),
      popMin h = some (m, rest) → ∀ y ∈ h, entryLe m y = true := by
  intro h
  induction h with
  | nil => intro m rest hmr; simp [popMin] at hmr
  | cons x xs ih =>
    intro m rest hmr y hy
    rw [popMin] at hmr
    cases hx : popMin xs with
    | none =>
      rw [hx] at hmr
      obtain ⟨rfl, -⟩ : x = m ∧ [] = rest := by
        constructor <;> (cases hmr; rfl)
      have hxs : xs = [] := by
        cases xs with
        | nil => rfl
        | cons z zs => have := popMin_isSome z zs; rw [hx] at this; cases this
      rw [hxs] at hy
      simp only [List.mem_singleton] at hy
      rw [hy]
      exact entryLe_refl _
    | some p =>
      obtain ⟨m1, r1⟩ := p
      rw [hx] at hmr
      have hmr2 : (if entryLe x m1 then some (x, m1 :: r1) else some (m1, x :: r1)) =
          some (m, rest) := hmr
      by_cases hle : entryLe x m1
      · rw [if_pos hle] at hmr2
        obtain ⟨rfl, -⟩ : x = m ∧ m1 :: r1 = rest := by
          constructor <;> (cases hmr2; rfl)
        rcases List.mem_cons.mp hy with rfl | hy
        · exact entryLe_refl _
        · exact entryLe_trans hle (ih m1 r1 hx y hy)
      · rw [if_neg hle] at hmr2
        obtain ⟨rfl, -⟩ : m1 = m ∧ x :: r1 = rest := by
          constructor <;> (cases hmr2; rfl)
        rcases List.mem_cons.mp hy with rfl | hy
        · rcases entryLe_total y m1 with h1 | h1
          · exact absurd h1 hle
          · exact h1
        · exact ih m1 r1 hx y hy

theorem popMin_none_iff (h : List (Int × Nat × Event)) :
    popMin h = none ↔ h = [] := by
  cases h with
  | nil => simp [popMin]
  | cons x xs =>
    constructor
    · intro hc
      have := popMin_isSome x xs
      rw [hc] at this
      cases this
    · intro hc
      cases hc

/-! ### Ledger lemmas -/

/-- `record_cancel` stores the minimum of the new time and the previously
stored one (a missing binding acts as plus infinity). -/
theorem lookupCancel_recordCancel_self (L : Ledger) (device : Int) (desc : String)
    (t : Int) :
    lookupCancel (recordCancel L device desc t) device desc =
      some (match lookupCancel L device desc with
            | none => t
            | some prev => min t prev) := by
  cases hL : lookupCancel L device desc with
  | none =>
    have hrec : recordCancel L device desc t = ((device, desc), t) :: L := by
      rw [recordCancel, hL]
    rw [hrec, lookupCancel, List.find?_cons_of_pos _ (by simp)]
  | some prev =>
    have hrec : recordCancel L device desc t =
        if t < prev then ((device, desc), t) :: L else L := by
      rw [recordCancel, hL]
    by_cases ht : t < prev
    · rw [hrec, if_pos ht, lookupCancel, List.find?_cons_of_pos _ (by simp)]
      simp [min_eq_left (le_of_lt ht)]
    · rw [hrec, if_neg ht, hL]
      simp [min_eq_right (le_of_not_lt ht)]

theorem lookupCancel_recordCancel_other (L : Ledger) (device : Int) (desc : String)
    (t : Int) (device9 : Int) (desc9 : String)
    (hne : ¬(device9 = device ∧ desc9 = desc)) :
    lookupCancel (recordCancel L device desc t) device9 desc9 =
      lookupCancel L device9 desc9 := by
  cases hL : lookupCancel L device desc with
  | none =>
    have hrec : recordCancel L device desc t = ((device, desc), t) :: L := by
      rw [recordCancel, hL]
    rw [hrec, lookupCancel,
      List.find?_cons_of_neg _ (by simpa using fun a b => hne ⟨a.symm, b.symm⟩)]
    rfl
  | some prev =>
    have hrec : recordCancel L device desc t =
        if t < prev then ((device, desc), t) :: L else L := by
      rw [recordCancel, hL]
    by_cases ht : t < prev
    · rw [hrec, if_pos ht, lookupCancel,
        List.find?_cons_of_neg _ (by simpa using fun a b => hne ⟨a.symm, b.symm⟩)]
      rfl
    · rw [hrec, if_neg ht]

/-- The stored time for any pair never increases across a `record_cancel`. -/
theorem lookupCancel_recordCancel_mono (L : Ledger) (device : Int) (desc : String)
    (t : Int) (device9 : Int) (desc9 : String) (v : Int)
    (hv : lookupCancel L device9 desc9 = some v) :
    ∃ v9, lookupCancel (recordCancel L device desc t) device9 desc9 = some v9 ∧
      v9 ≤ v := by
  by_cases hsame : device9 = device ∧ desc9 = desc
  · obtain ⟨rfl, rfl⟩ := hsame
    rw [lookupCancel_recordCancel_self, hv]
    exact ⟨min t v, rfl, min_le_right t v⟩
  · rw [lookupCancel_recordCancel_other L device desc t device9 desc9 hsame, hv]
    exact ⟨v, rfl, le_refl v⟩

/-- `cancelled_before` holds exactly when a strictly earlier time is stored. -/
theorem cancelledBefore_iff (L : Ledger) (device : Int) (desc : String) (t : Int) :
    cancelledBefore L device desc t = true ↔
      ∃ v, lookupCancel L device desc = some v ∧ v < t := by
  rw [cancelledBefore]
  cases hL : lookupCancel L device desc with
  | none => simp
  | some prev => simp

/-! ### Closed forms for the propagation loops -/

theorem propagateAlert_foldl (t : Int) (device : Int)
    (desc : String) :
    ∀ (es : List (Int × Int)) (s : SimState),
      es.foldl
        (fun s e =>
          pushEvent { s with out := s.out ++ [Entry.sentAlert t device e.1 desc] }
            (t + e.2)
            { time := t + e.2, kind := .recvAlert, device := e.1, desc := desc,
              src := some device })
        s =
      { heap := alertPushes t device desc s.nextSeq es ++ s.heap,
        nextSeq := s.nextSeq + es.length,
        ledger := s.ledger,
        out := s.out ++ es.map (fun e => Entry.sentAlert t device e.1 desc) } := by
  intro es
  induction es with
  | nil => intro s; simp [alertPushes]
  | cons e es ih =>
    intro s
    rw [List.foldl_cons, ih]
    simp only [pushEvent, alertPushes, SimState.mk.injEq]
    refine ⟨by simp, by simp only [List.length_cons]; omega, trivial, by simp⟩

theorem propagateCancel_foldl (t : Int) (device : Int)
    (desc : String) :
    ∀ (es : List (Int × Int)) (s : SimState),
      es.foldl
        (fun s e =>
          pushEvent { s with out := s.out ++ [Entry.sentCancel t device e.1 desc] }
            (t + e.2)
            { time := t + e.2, kind := .recvCancel, device := e.1, desc := desc,
              src := some device })
        s =
      { heap := cancelPushes t device desc s.nextSeq es ++ s.heap,
        nextSeq := s.nextSeq + es.length,
        ledger := s.ledger,
        out := s.out ++ es.map (fun e => Entry.sentCancel t device e.1 desc) } := by
  intro es
  induction es with
  | nil => intro s; simp [cancelPushes]
  | cons e es ih =>
    intro s
    rw [List.foldl_cons, ih]
    simp only [pushEvent, cancelPushes, SimState.mk.injEq]
    refine ⟨by simp, by simp only [List.length_cons]; omega, trivial, by simp⟩

/-- `propagateAlert` in closed form. -/
theorem propagateAlert_eq (cfg : SimulationConfig) (t : Int) (device : Int)
    (desc : String) (s : SimState) :
    propagateAlert cfg t device desc s =
      { heap := alertPushes t device desc s.nextSeq (lookupProp cfg.propagate device)
          ++ s.heap,
        nextSeq := s.nextSeq + (lookupProp cfg.propagate device).length,
        ledger := s.ledger,
        out := s.out ++ (lookupProp cfg.propagate device).map
          (fun e => Entry.sentAlert t device e.1 desc) } :=
  propagateAlert_foldl t device desc (lookupProp cfg.propagate device) s

/-- `propagateCancel` in closed form. -/
theorem propagateCancel_eq (cfg : SimulationConfig) (t : Int) (device : Int)
    (desc : String) (s : SimState) :
    propagateCancel cfg t device desc s =
      { heap := cancelPushes t device desc s.nextSeq (lookupProp cfg.propagate device)
          ++ s.heap,
        nextSeq := s.nextSeq + (lookupProp cfg.propagate device).length,
        ledger := s.ledger,
        out := s.out ++ (lookupProp cfg.propagate device).map
          (fun e => Entry.sentCancel t device e.1 desc) } :=
  propagateCancel_foldl t device desc (lookupProp cfg.propagate device) s

theorem alertPushes_length (t : Int) (device : Int) (desc : String) :
    ∀ (n : Nat) (es : List (Int × Int)),
      (alertPushes t device desc n es).length = es.length := by
  intro n es
  induction es generalizing n with
  | nil => rfl
  | cons e es ih => simp [alertPushes, ih]

theorem cancelPushes_length (t : Int) (device : Int) (desc : String) :
    ∀ (n : Nat) (es : List (Int × Int)),
      (cancelPushes t device desc n es).length = es.length := by
  intro n es
  induction es generalizing n with
  | nil => rfl
  | cons e es ih => simp [cancelPushes, ih]

theorem alertPushes_mem (t : Int) (device : Int) (desc : String) :
    ∀ (n : Nat) (es : List (Int × Int)) (x : Int × Nat × Event),
      x ∈ alertPushes t device desc n es →
      ∃ e ∈ es, x.1 = t + e.2 ∧ n ≤ x.2.1 ∧ x.2.1 < n + es.length := by
  intro n es
  induction es generalizing n with
  | nil => intro x hx; cases hx
  | cons e es ih =>
    intro x hx
    simp only [alertPushes] at hx
    rcases List.mem_append.mp hx with hx | hx
    · obtain ⟨e9, he9, h1, h2, h3⟩ := ih (n + 1) x hx
      refine ⟨e9, List.mem_cons_of_mem e he9, h1, by omega, ?_⟩
      simp only [List.length_cons]
      omega
    · simp only [List.mem_singleton] at hx
      subst hx
      refine ⟨e, List.mem_cons_self e es, rfl, le_refl n, ?_⟩
      simp only [List.length_cons]
      omega

theorem cancelPushes_mem (t : Int) (device : Int) (desc : String) :
    ∀ (n : Nat) (es : List (Int × Int)) (x : Int × Nat × Event),
      x ∈ cancelPushes t device desc n es →
      ∃ e ∈ es, x.1 = t + e.2 ∧ n ≤ x.2.1 ∧ x.2.1 < n + es.length := by
  intro n es
  induction es generalizing n with
  | nil => intro x hx; cases hx
  | cons e es ih =>
    intro x hx
    simp only [cancelPushes] at hx
    rcases List.mem_append.mp hx with hx | hx
    · obtain ⟨e9, he9, h1, h2, h3⟩ := ih (n + 1) x hx
      refine ⟨e9, List.mem_cons_of_mem e he9, h1, by omega, ?_⟩
      simp only [List.length_cons]
      omega
    · simp only [List.mem_singleton] at hx
      subst hx
      refine ⟨e, List.mem_cons_self e es, rfl, le_refl n, ?_⟩
      simp only [List.length_cons]
      omega

/-! ### The four dispatch branches of the loop body, in closed form -/

theorem handleEvent_raiseAlert (cfg : SimulationConfig) (t : Int) (tm : Int)
    (dv : Int) (dsc : String) (sr : Option Int) (s : SimState) :
    handleEvent cfg t
      { time := tm, kind := .raiseAlert, device := dv, desc := dsc, src := sr }
      s =
      if cancelledBefore s.ledger dv dsc t then s
      else propagateAlert cfg t dv dsc s := rfl

theorem handleEvent_raiseCancel (cfg : SimulationConfig) (t : Int) (tm : Int)
    (dv : Int) (dsc : String) (sr : Option Int) (s : SimState) :
    handleEvent cfg t
      { time := tm, kind := .raiseCancel, device := dv, desc := dsc, src := sr }
      s =
      if cancelledBefore (recordCancel s.ledger dv dsc t) dv dsc t
      then { s with ledger := recordCancel s.ledger dv dsc t }
      else propagateCancel cfg t dv dsc
        { s with ledger := recordCancel s.ledger dv dsc t } := rfl

theorem handleEvent_recvAlert (cfg : SimulationConfig) (t : Int) (tm : Int)
    (dv : Int) (dsc : String) (sr : Option Int) (s : SimState) :
    handleEvent cfg t
      { time := tm, kind := .recvAlert, device := dv, desc := dsc, src := sr }
      s =
      if cancelledBefore s.ledger dv dsc t
      then { s with out := s.out ++ [Entry.recvAlert t dv sr dsc] }
      else propagateAlert cfg t dv dsc
        { s with out := s.out ++ [Entry.recvAlert t dv sr dsc] } := rfl

theorem handleEvent_recvCancel (cfg : SimulationConfig) (t : Int) (tm : Int)
    (dv : Int) (dsc : String) (sr : Option Int) (s : SimState) :
    handleEvent cfg t
      { time := tm, kind := .recvCancel, device := dv, desc := dsc, src := sr }
      s =
      if cancelledBefore s.ledger dv dsc t
      then
        { s with
          out := s.out ++ [Entry.recvCancel t dv sr dsc],
          ledger := recordCancel s.ledger dv dsc t }
      else
        propagateCancel cfg t dv dsc
          { s with
            out := s.out ++ [Entry.recvCancel t dv sr dsc],
            ledger := recordCancel s.ledger dv dsc t } := rfl

/-- What one loop-body dispatch can do to the state: it extends the heap
with at most out-degree many entries, all timed `t + delay` along existing
edges of the handled device and carrying fresh sequence numbers; it extends
the transcript with lines timestamped `t`, none of them an END line; and it
never shrinks the sequence counter. -/
theorem handleEvent_spec (cfg : SimulationConfig) (t : Int) (ev : Event)
    (s : SimState) :
    ∃ hp outl,
      (handleEvent cfg t ev s).heap = hp ++ s.heap ∧
      (handleEvent cfg t ev s).out = s.out ++ outl ∧
      s.nextSeq ≤ (handleEvent cfg t ev s).nextSeq ∧
      hp.length ≤ (lookupProp cfg.propagate ev.device).length ∧
      (∀ x ∈ hp, (∃ e ∈ lookupProp cfg.propagate ev.device, x.1 = t + e.2) ∧
        s.nextSeq ≤ x.2.1 ∧ x.2.1 < (handleEvent cfg t ev s).nextSeq) ∧
      (∀ e9 ∈ outl, Entry.time e9 = t ∧ Entry.isEnd e9 = false) := by
  obtain ⟨tm, k, dv, dsc, sr⟩ := ev
  cases k with
  | raiseAlert =>
    rw [handleEvent_raiseAlert]
    by_cases hg : cancelledBefore s.ledger dv dsc t
    · rw [if_pos hg]
      exact ⟨[], [], by simp, by simp, le_refl _, by simp, by simp, by simp⟩
    · rw [if_neg hg, propagateAlert_eq]
      refine ⟨alertPushes t dv dsc s.nextSeq (lookupProp cfg.propagate dv),
        (lookupProp cfg.propagate dv).map (fun e => Entry.sentAlert t dv e.1 dsc),
        rfl, rfl, by simp, ?_, ?_, ?_⟩
      · rw [alertPushes_length]
      · intro x hx
        obtain ⟨e9, he9, h1, h2, h3⟩ := alertPushes_mem t dv dsc s.nextSeq _ x hx
        exact ⟨⟨e9, he9, h1⟩, h2, by simpa using h3⟩
      · intro e9 he9
        obtain ⟨e1, -, rfl⟩ := List.mem_map.mp he9
        exact ⟨rfl, rfl⟩
  | raiseCancel =>
    rw [handleEvent_raiseCancel]
    by_cases hg : cancelledBefore (recordCancel s.ledger dv dsc t) dv dsc t
    · rw [if_pos hg]
      exact ⟨[], [], by simp, by simp, le_refl _, by simp, by simp, by simp⟩
    · rw [if_neg hg, propagateCancel_eq]
      refine ⟨cancelPushes t dv dsc s.nextSeq (lookupProp cfg.propagate dv),
        (lookupProp cfg.propagate dv).map (fun e => Entry.sentCancel t dv e.1 dsc),
        rfl, rfl, by simp, ?_, ?_, ?_⟩
      · rw [cancelPushes_length]
      · intro x hx
        obtain ⟨e9, he9, h1, h2, h3⟩ := cancelPushes_mem t dv dsc s.nextSeq _ x hx
        exact ⟨⟨e9, he9, h1⟩, h2, by simpa using h3⟩
      · intro e9 he9
        obtain ⟨e1, -, rfl⟩ := List.mem_map.mp he9
        exact ⟨rfl, rfl⟩
  | recvAlert =>
    rw [handleEvent_recvAlert]
    by_cases hg : cancelledBefore s.ledger dv dsc t
    · rw [if_pos hg]
      refine ⟨[], [Entry.recvAlert t dv sr dsc], by simp, rfl, le_refl _,
        by simp, by simp, ?_⟩
      intro e9 he9
      simp only [List.mem_singleton] at he9
      subst he9
      exact ⟨rfl, rfl⟩
    · rw [if_neg hg, propagateAlert_eq]
      refine ⟨alertPushes t dv dsc s.nextSeq (lookupProp cfg.propagate dv),
        Entry.recvAlert t dv sr dsc ::
          (lookupProp cfg.propagate dv).map (fun e => Entry.sentAlert t dv e.1 dsc),
        rfl, by simp, by simp, ?_, ?_, ?_⟩
      · rw [alertPushes_length]
      · intro x hx
        obtain ⟨e9, he9, h1, h2, h3⟩ := alertPushes_mem t dv dsc s.nextSeq _ x hx
        exact ⟨⟨e9, he9, h1⟩, h2, by simpa using h3⟩
      · intro e9 he9
        rcases List.mem_cons.mp he9 with rfl | he9
        · exact ⟨rfl, rfl⟩
        · obtain ⟨e1, -, rfl⟩ := List.mem_map.mp he9
          exact ⟨rfl, rfl⟩
  | recvCancel =>
    rw [handleEvent_recvCancel]
    by_cases hg : cancelledBefore s.ledger dv dsc t
    · rw [if_pos hg]
      refine ⟨[], [Entry.recvCancel t dv sr dsc], by simp, rfl, le_refl _,
        by simp, by simp, ?_⟩
      intro e9 he9
      simp only [List.mem_singleton] at he9
      subst he9
      exact ⟨rfl, rfl⟩
    · rw [if_neg hg, propagateCancel_eq]
      refine ⟨cancelPushes t dv dsc s.nextSeq (lookupProp cfg.propagate dv),
        Entry.recvCancel t dv sr dsc ::
          (lookupProp cfg.propagate dv).map (fun e => Entry.sentCancel t dv e.1 dsc),
        rfl, by simp, by simp, ?_, ?_, ?_⟩
      · rw [cancelPushes_length]
      · intro x hx
        obtain ⟨e9, he9, h1, h2, h3⟩ := cancelPushes_mem t dv dsc s.nextSeq _ x hx
        exact ⟨⟨e9, he9, h1⟩, h2, by simpa using h3⟩
      · intro e9 he9
        rcases List.mem_cons.mp he9 with rfl | he9
        · exact ⟨rfl, rfl⟩
        · obtain ⟨e1, -, rfl⟩ := List.mem_map.mp he9
          exact ⟨rfl, rfl⟩

/-- The dispatch never increases any stored cancellation time. -/
theorem handleEvent_ledger_mono (cfg : SimulationConfig) (t : Int) (ev : Event)
    (s : SimState) (d : Int) (m : String) (v : Int)
    (hv : lookupCancel s.ledger d m = some v) :
    ∃ v9, lookupCancel (handleEvent cfg t ev s).ledger d m = some v9 ∧ v9 ≤ v := by
  obtain ⟨tm, k, dv, dsc, sr⟩ := ev
  cases k with
  | raiseAlert =>
    rw [handleEvent_raiseAlert]
    by_cases hg : cancelledBefore s.ledger dv dsc t
    · rw [if_pos hg]; exact ⟨v, hv, le_refl v⟩
    · rw [if_neg hg, propagateAlert_eq]; exact ⟨v, hv, le_refl v⟩
  | raiseCancel =>
    rw [handleEvent_raiseCancel]
    by_cases hg : cancelledBefore (recordCancel s.ledger dv dsc t) dv dsc t
    · rw [if_pos hg]
      obtain ⟨v9, h1, h2⟩ := lookupCancel_recordCancel_mono s.ledger dv dsc t d m v hv
      exact ⟨v9, h1, h2⟩
    · rw [if_neg hg, propagateCancel_eq]
      obtain ⟨v9, h1, h2⟩ := lookupCancel_recordCancel_mono s.ledger dv dsc t d m v hv
      exact ⟨v9, h1, h2⟩
  | recvAlert =>
    rw [handleEvent_recvAlert]
    by_cases hg : cancelledBefore s.ledger dv dsc t
    · rw [if_pos hg]; exact ⟨v, hv, le_refl v⟩
    · rw [if_neg hg, propagateAlert_eq]; exact ⟨v, hv, le_refl v⟩
  | recvCancel =>
    rw [handleEvent_recvCancel]
    by_cases hg : cancelledBefore s.ledger dv dsc t
    · rw [if_pos hg]
      obtain ⟨v9, h1, h2⟩ := lookupCancel_recordCancel_mono s.ledger dv dsc t d m v hv
      exact ⟨v9, h1, h2⟩
    · rw [if_neg hg, propagateCancel_eq]
      obtain ⟨v9, h1, h2⟩ := lookupCancel_recordCancel_mono s.ledger dv dsc t d m v hv
      exact ⟨v9, h1, h2⟩

/-! ### Loop invariants and initial state -/

/-- Any property preserved by the dispatch (under the horizon guard) and by
discarding the popped entry holds of the loop's final state. -/
theorem runLoop_inv (cfg : SimulationConfig) (P : SimState → Prop)
    (hstep : ∀ (e : Int × Nat × Event) rest s, P s → popMin s.heap = some (e, rest) →
      e.1 < cfg.length → P (handleEvent cfg e.1 e.2.2 { s with heap := rest }))
    (hshrink : ∀ (e : Int × Nat × Event) rest s, P s →
      popMin s.heap = some (e, rest) → P { s with heap := rest }) :
    ∀ (fuel : Nat) (s s9 : SimState), P s → runLoop cfg fuel s = some s9 → P s9 := by
  intro fuel
  induction fuel with
  | zero => intro s s9 hP h; cases h
  | succ fuel ih =>
    intro s s9 hP h
    rw [runLoop] at h
    cases hpop : popMin s.heap with
    | none =>
      rw [hpop] at h
      have h2 : some s = some s9 := h
      cases h2
      exact hP
    | some p =>
      obtain ⟨e, rest⟩ := p
      rw [hpop] at h
      have h2 : (if cfg.length ≤ e.1 then some { s with heap := rest }
          else runLoop cfg fuel (handleEvent cfg e.1 e.2.2 { s with heap := rest })) =
          some s9 := h
      by_cases hlen : cfg.length ≤ e.1
      · rw [if_pos hlen] at h2
        cases h2
        exact hshrink e rest s hP hpop
      · rw [if_neg hlen] at h2
        exact ih _ s9 (hstep e rest s hP hpop (lt_of_not_ge hlen)) h2

theorem initState_foldl_out (evs : List Event) :
    ∀ s : SimState, (evs.foldl (fun s ev => pushEvent s ev.time ev) s).out = s.out := by
  induction evs with
  | nil => intro s; rfl
  | cons ev evs ih => intro s; rw [List.foldl_cons, ih]; rfl

theorem initState_foldl_ledger (evs : List Event) :
    ∀ s : SimState,
      (evs.foldl (fun s ev => pushEvent s ev.time ev) s).ledger = s.ledger := by
  induction evs with
  | nil => intro s; rfl
  | cons ev evs ih => intro s; rw [List.foldl_cons, ih]; rfl

theorem initState_out (cfg : SimulationConfig) : (initState cfg).out = [] :=
  initState_foldl_out cfg.initialEvents _

theorem initState_ledger (cfg : SimulationConfig) : (initState cfg).ledger = [] :=
  initState_foldl_ledger cfg.initialEvents _

/-- Two successful runs of the loop from the same state agree, whatever
fuel they were given: the fuel is an artifact of the embedding, not a
source of nondeterminism. -/
theorem runLoop_agree (cfg : SimulationConfig) :
    ∀ (f1 f2 : Nat) (s o1 o2 : SimState),
      runLoop cfg f1 s = some o1 → runLoop cfg f2 s = some o2 → o1 = o2 := by
  intro f1
  induction f1 with
  | zero => intro f2 s o1 o2 h1; cases h1
  | succ f1 ih =>
    intro f2 s o1 o2 h1 h2
    cases f2 with
    | zero => cases h2
    | succ f2 =>
      rw [runLoop] at h1 h2
      cases hpop : popMin s.heap with
      | none =>
        rw [hpop] at h1 h2
        have e1 : some s = some o1 := h1
        have e2 : some s = some o2 := h2
        cases e1; cases e2; rfl
      | some p =>
        obtain ⟨e, rest⟩ := p
        rw [hpop] at h1 h2
        have e1 : (if cfg.length ≤ e.1 then some { s with heap := rest }
            else runLoop cfg f1 (handleEvent cfg e.1 e.2.2 { s with heap := rest })) =
            some o1 := h1
        have e2 : (if cfg.length ≤ e.1 then some { s with heap := rest }
            else runLoop cfg f2 (handleEvent cfg e.1 e.2.2 { s with heap := rest })) =
            some o2 := h2
        by_cases hlen : cfg.length ≤ e.1
        · rw [if_pos hlen] at e1 e2
          cases e1; cases e2; rfl
        · rw [if_neg hlen] at e1 e2
          exact ih f2 _ o1 o2 e1 e2

theorem cancelledBefore_of_lookup (L : Ledger) (device : Int) (desc : String)
    (t v : Int) (hv : lookupCancel L device desc = some v) :
    cancelledBefore L device desc t = decide (v < t) := by
  simp only [cancelledBefore, hv]

theorem cancelledBefore_of_lookup_none (L : Ledger) (device : Int) (desc : String)
    (t : Int) (hv : lookupCancel L device desc = none) :
    cancelledBefore L device desc t = false := by
  simp only [cancelledBefore, hv]

/-- Every line the loop has written is timestamped strictly below the
horizon and is not an END line: both facts come from the guard `t >=
cfg.length: break` running before any dispatch. -/
theorem runLoop_out_facts (cfg : SimulationConfig) (fuel : Nat) (s9 : SimState)
    (h : runLoop cfg fuel (initState cfg) = some s9) :
    ∀ e ∈ s9.out, Entry.time e < cfg.length ∧ Entry.isEnd e = false := by
  refine runLoop_inv cfg
    (fun s => ∀ e ∈ s.out, Entry.time e < cfg.length ∧ Entry.isEnd e = false)
    ?_ ?_ fuel (initState cfg) s9 ?_ h
  · intro e rest s hP hpop hlt e9 he9
    obtain ⟨hp, outl, -, hout, -, -, -, houtl⟩ :=
      handleEvent_spec cfg e.1 e.2.2 { s with heap := rest }
    rw [hout] at he9
    rcases List.mem_append.mp he9 with he9 | he9
    · exact hP e9 he9
    · obtain ⟨h1, h2⟩ := houtl e9 he9
      exact ⟨h1 ▸ hlt, h2⟩
  · intro e rest s hP hpop e9 he9
    exact hP e9 he9
  · intro e9 he9
    rw [initState_out] at he9
    cases he9

theorem runLoop_succ_empty (cfg : SimulationConfig) (fuel : Nat) (s : SimState)
    (hpop : popMin s.heap = none) : runLoop cfg (fuel + 1) s = some s := by
  rw [runLoop, hpop]

theorem runLoop_succ_break (cfg : SimulationConfig) (fuel : Nat) (s : SimState)
    (e : Int × Nat × Event) (rest : List (Int × Nat × Event))
    (hpop : popMin s.heap = some (e, rest)) (hge : cfg.length ≤ e.1) :
    runLoop cfg (fuel + 1) s = some { s with heap := rest } := by
  rw [runLoop, hpop]
  show (if cfg.length ≤ e.1 then some { s with heap := rest }
      else runLoop cfg fuel (handleEvent cfg e.1 e.2.2 { s with heap := rest })) = _
  rw [if_pos hge]

theorem runLoop_succ_of_pop (cfg : SimulationConfig) (fuel : Nat) (s : SimState)
    (e : Int × Nat × Event) (rest : List (Int × Nat × Event))
    (hpop : popMin s.heap = some (e, rest)) (hlt : e.1 < cfg.length) :
    runLoop cfg (fuel + 1) s =
      runLoop cfg fuel (handleEvent cfg e.1 e.2.2 { s with heap := rest }) := by
  rw [runLoop, hpop]
  show (if cfg.length ≤ e.1 then some { s with heap := rest }
      else runLoop cfg fuel (handleEvent cfg e.1 e.2.2 { s with heap := rest })) = _
  rw [if_neg (not_le.mpr hlt)]

theorem mem_lookupProp (P : List (Int × List (Int × Int))) (d : Int)
    (e9 : Int × Int) (h : e9 ∈ lookupProp P d) : ∃ p ∈ P, e9 ∈ p.2 := by
  rw [lookupProp] at h
  cases hf : P.find? (fun e => e.1 == d) with
  | none =>
    rw [hf] at h
    cases h
  | some p =>
    rw [hf] at h
    have h2 : e9 ∈ p.2 := h
    exact ⟨p, List.mem_of_find?_eq_some hf, h2⟩

theorem cancelInv_step (cfg : SimulationConfig)
    (hnn : ∀ p ∈ cfg.propagate, ∀ e9 ∈ p.2, 0 ≤ e9.2)
    (e : Int × Nat × Event) (rest : List (Int × Nat × Event)) (s : SimState)
    (hP : cancelInv s) (hpop : popMin s.heap = some (e, rest)) :
    cancelInv (handleEvent cfg e.1 e.2.2 { s with heap := rest }) := by
  obtain ⟨t0, sq, ev⟩ := e
  obtain ⟨P1, P2⟩ := hP
  have hperm := popMin_perm s.heap (t0, sq, ev) rest hpop
  have heS : (t0, sq, ev) ∈ s.heap := hperm.mem_iff.mpr (List.mem_cons_self _ _)
  have hrest_mem : ∀ x ∈ rest, x ∈ s.heap := fun x hx =>
    hperm.mem_iff.mpr (List.mem_cons_of_mem _ hx)
  have hmin := popMin_min s.heap (t0, sq, ev) rest hpop
  have hrest_t0 : ∀ x ∈ rest, t0 ≤ x.1 := fun x hx =>
    entryLe_time (hmin x (hrest_mem x hx))
  have hold_le : ∀ (t d dst : Int) (m : String),
      Entry.sentCancel t d dst m ∈ s.out → t ≤ t0 := fun t d dst m hmem =>
    (P1 t d dst m hmem).2 (t0, sq, ev) heS
  have hnn9 : ∀ d, ∀ e9 ∈ lookupProp cfg.propagate d, 0 ≤ e9.2 := by
    intro d e9 he9
    obtain ⟨p, hp, hep⟩ := mem_lookupProp cfg.propagate d e9 he9
    exact hnn p hp e9 hep
  obtain ⟨tm, k, dv, dsc, sr⟩ := ev
  cases k with
  | raiseAlert =>
    rw [handleEvent_raiseAlert]
    by_cases hg : cancelledBefore s.ledger dv dsc t0
    · rw [if_pos hg]
      refine ⟨?_, P2⟩
      intro t d dst m hmem
      exact ⟨(P1 t d dst m hmem).1,
        fun x hx => (P1 t d dst m hmem).2 x (hrest_mem x hx)⟩
    · rw [if_neg hg, propagateAlert_eq]
      constructor
      · intro t d dst m hmem
        rcases List.mem_append.mp hmem with hmem | hmem
        · refine ⟨(P1 t d dst m hmem).1, ?_⟩
          intro x hx
          rcases List.mem_append.mp hx with hx | hx
          · obtain ⟨e9, he9, hx1, -, -⟩ :=
              alertPushes_mem t0 dv dsc s.nextSeq _ x hx
            have := hnn9 dv e9 he9
            have := hold_le t d dst m hmem
            omega
          · exact (P1 t d dst m hmem).2 x (hrest_mem x hx)
        · obtain ⟨a, -, ha⟩ := List.mem_map.mp hmem
          cases ha
      · intro t1 t2 d dst1 dst2 m h1 h2
        rcases List.mem_append.mp h1 with h1 | h1
        · rcases List.mem_append.mp h2 with h2 | h2
          · exact P2 t1 t2 d dst1 dst2 m h1 h2
          · obtain ⟨a, -, ha⟩ := List.mem_map.mp h2
            cases ha
        · obtain ⟨a, -, ha⟩ := List.mem_map.mp h1
          cases ha
  | raiseCancel =>
    rw [handleEvent_raiseCancel]
    by_cases hg : cancelledBefore (recordCancel s.ledger dv dsc t0) dv dsc t0
    · rw [if_pos hg]
      constructor
      · intro t d dst m hmem
        obtain ⟨⟨v, hv, hvt⟩, -⟩ := P1 t d dst m hmem
        obtain ⟨v9, hv9, hv9le⟩ :=
          lookupCancel_recordCancel_mono s.ledger dv dsc t0 d m v hv
        exact ⟨⟨v9, hv9, le_trans hv9le hvt⟩,
          fun x hx => (P1 t d dst m hmem).2 x (hrest_mem x hx)⟩
      · exact P2
    · rw [if_neg hg, propagateCancel_eq]
      have hw := lookupCancel_recordCancel_self s.ledger dv dsc t0
      have hge : ∀ w, lookupCancel (recordCancel s.ledger dv dsc t0) dv dsc =
          some w → t0 ≤ w := by
        intro w hweq
        by_contra hcon
        have : cancelledBefore (recordCancel s.ledger dv dsc t0) dv dsc t0 = true := by
          rw [cancelledBefore_of_lookup _ dv dsc t0 w hweq]
          simp only [decide_eq_true_eq]
          omega
        exact hg this
      have hself : lookupCancel (recordCancel s.ledger dv dsc t0) dv dsc = some t0 := by
        rw [hw]
        cases hL : lookupCancel s.ledger dv dsc with
        | none => rfl
        | some p =>
          have hle : t0 ≤ min t0 p := by
            apply hge
            rw [hw, hL]
          have hmineq : min t0 p = t0 := by
            have := min_le_left t0 p
            omega
          show some (min t0 p) = some t0
          rw [hmineq]
      constructor
      · intro t d dst m hmem
        rcases List.mem_append.mp hmem with hmem | hmem
        · obtain ⟨⟨v, hv, hvt⟩, -⟩ := P1 t d dst m hmem
          obtain ⟨v9, hv9, hv9le⟩ :=
            lookupCancel_recordCancel_mono s.ledger dv dsc t0 d m v hv
          refine ⟨⟨v9, hv9, le_trans hv9le hvt⟩, ?_⟩
          intro x hx
          rcases List.mem_append.mp hx with hx | hx
          · obtain ⟨e9, he9, hx1, -, -⟩ :=
              cancelPushes_mem t0 dv dsc s.nextSeq _ x hx
            have := hnn9 dv e9 he9
            have := hold_le t d dst m hmem
            omega
          · exact (P1 t d dst m hmem).2 x (hrest_mem x hx)
        · obtain ⟨a, -, ha⟩ := List.mem_map.mp hmem
          cases ha
          refine ⟨⟨t0, hself, le_refl t0⟩, ?_⟩
          intro x hx
          rcases List.mem_append.mp hx with hx | hx
          · obtain ⟨e9, he9, hx1, -, -⟩ :=
              cancelPushes_mem t0 dv dsc s.nextSeq _ x hx
            have := hnn9 dv e9 he9
            omega
          · exact hrest_t0 x hx
      · have hnew_old : ∀ (t1 dst1 dst2 : Int),
            Entry.sentCancel t1 dv dst1 dsc ∈ s.out → t1 = t0 := by
          intro t1 dst1 dst2 h1
          obtain ⟨⟨v, hv, hvt⟩, -⟩ := P1 t1 dv dst1 dsc h1
          have hle : t1 ≤ t0 := hold_le t1 dv dst1 dsc h1
          have hmin9 : lookupCancel (recordCancel s.ledger dv dsc t0) dv dsc =
              some (min t0 v) := by
            rw [hw, hv]
          have := hge (min t0 v) hmin9
          have := min_le_right t0 v
          omega
        intro t1 t2 d dst1 dst2 m h1 h2
        rcases List.mem_append.mp h1 with h1 | h1
        · rcases List.mem_append.mp h2 with h2 | h2
          · exact P2 t1 t2 d dst1 dst2 m h1 h2
          · obtain ⟨a, -, ha⟩ := List.mem_map.mp h2
            cases ha
            exact hnew_old t1 dst1 dst1 h1
        · obtain ⟨a, -, ha⟩ := List.mem_map.mp h1
          cases ha
          rcases List.mem_append.mp h2 with h2 | h2
          · exact (hnew_old t2 dst2 dst2 h2).symm
          · obtain ⟨a2, -, ha2⟩ := List.mem_map.mp h2
            cases ha2
            rfl
  | recvAlert =>
    rw [handleEvent_recvAlert]
    by_cases hg : cancelledBefore s.ledger dv dsc t0
    · rw [if_pos hg]
      constructor
      · intro t d dst m hmem
        rcases List.mem_append.mp hmem with hmem | hmem
        · exact ⟨(P1 t d dst m hmem).1,
            fun x hx => (P1 t d dst m hmem).2 x (hrest_mem x hx)⟩
        · simp only [List.mem_singleton] at hmem
          cases hmem
      · intro t1 t2 d dst1 dst2 m h1 h2
        rcases List.mem_append.mp h1 with h1 | h1
        · rcases List.mem_append.mp h2 with h2 | h2
          · exact P2 t1 t2 d dst1 dst2 m h1 h2
          · simp only [List.mem_singleton] at h2
            cases h2
        · simp only [List.mem_singleton] at h1
          cases h1
    · rw [if_neg hg, propagateAlert_eq]
      constructor
      · intro t d dst m hmem
        rcases List.mem_append.mp hmem with hmem | hmem
        · rcases List.mem_append.mp hmem with hmem | hmem
          · refine ⟨(P1 t d dst m hmem).1, ?_⟩
            intro x hx
            rcases List.mem_append.mp hx with hx | hx
            · obtain ⟨e9, he9, hx1, -, -⟩ :=
                alertPushes_mem t0 dv dsc s.nextSeq _ x hx
              have := hnn9 dv e9 he9
              have := hold_le t d dst m hmem
              omega
            · exact (P1 t d dst m hmem).2 x (hrest_mem x hx)
          · simp only [List.mem_singleton] at hmem
            cases hmem
        · obtain ⟨a, -, ha⟩ := List.mem_map.mp hmem
          cases ha
      · intro t1 t2 d dst1 dst2 m h1 h2
        rcases List.mem_append.mp h1 with h1 | h1
        · rcases List.mem_append.mp h1 with h1 | h1
          · rcases List.mem_append.mp h2 with h2 | h2
            · rcases List.mem_append.mp h2 with h2 | h2
              · exact P2 t1 t2 d dst1 dst2 m h1 h2
              · simp only [List.mem_singleton] at h2
                cases h2
            · obtain ⟨a, -, ha⟩ := List.mem_map.mp h2
              cases ha
          · simp only [List.mem_singleton] at h1
            cases h1
        · obtain ⟨a, -, ha⟩ := List.mem_map.mp h1
          cases ha
  | recvCancel =>
    rw [handleEvent_recvCancel]
    by_cases hg : cancelledBefore s.ledger dv dsc t0
    · rw [if_pos hg]
      constructor
      · intro t d dst m hmem
        rcases List.mem_append.mp hmem with hmem | hmem
        · obtain ⟨⟨v, hv, hvt⟩, -⟩ := P1 t d dst m hmem
          obtain ⟨v9, hv9, hv9le⟩ :=
            lookupCancel_recordCancel_mono s.ledger dv dsc t0 d m v hv
          exact ⟨⟨v9, hv9, le_trans hv9le hvt⟩,
            fun x hx => (P1 t d dst m hmem).2 x (hrest_mem x hx)⟩
        · simp only [List.mem_singleton] at hmem
          cases hmem
      · intro t1 t2 d dst1 dst2 m h1 h2
        rcases List.mem_append.mp h1 with h1 | h1
        · rcases List.mem_append.mp h2 with h2 | h2
          · exact P2 t1 t2 d dst1 dst2 m h1 h2
          · simp only [List.mem_singleton] at h2
            cases h2
        · simp only [List.mem_singleton] at h1
          cases h1
    · rw [if_neg hg, propagateCancel_eq]
      have hcb : ∀ v, lookupCancel s.ledger dv dsc = some v → t0 ≤ v := by
        intro v hv
        by_contra hcon
        have : cancelledBefore s.ledger dv dsc t0 = true := by
          rw [cancelledBefore_of_lookup _ dv dsc t0 v hv]
          simp only [decide_eq_true_eq]
          omega
        exact hg this
      have hself : lookupCancel (recordCancel s.ledger dv dsc t0) dv dsc = some t0 := by
        rw [lookupCancel_recordCancel_self]
        cases hL : lookupCancel s.ledger dv dsc with
        | none => rfl
        | some p =>
          have h1 := hcb p hL
          have h2 : min t0 p = t0 := by
            have := min_le_left t0 p
            omega
          show some (min t0 p) = some t0
          rw [h2]
      constructor
      · intro t d dst m hmem
        rcases List.mem_append.mp hmem with hmem | hmem
        · rcases List.mem_append.mp hmem with hmem | hmem
          · obtain ⟨⟨v, hv, hvt⟩, -⟩ := P1 t d dst m hmem
            obtain ⟨v9, hv9, hv9le⟩ :=
              lookupCancel_recordCancel_mono s.ledger dv dsc t0 d m v hv
            refine ⟨⟨v9, hv9, le_trans hv9le hvt⟩, ?_⟩
            intro x hx
            rcases List.mem_append.mp hx with hx | hx
            · obtain ⟨e9, he9, hx1, -, -⟩ :=
                cancelPushes_mem t0 dv dsc s.nextSeq _ x hx
              have := hnn9 dv e9 he9
              have := hold_le t d dst m hmem
              omega
            · exact (P1 t d dst m hmem).2 x (hrest_mem x hx)
          · simp only [List.mem_singleton] at hmem
            cases hmem
        · obtain ⟨a, -, ha⟩ := List.mem_map.mp hmem
          cases ha
          refine ⟨⟨t0, hself, le_refl t0⟩, ?_⟩
          intro x hx
          rcases List.mem_append.mp hx with hx | hx
          · obtain ⟨e9, he9, hx1, -, -⟩ :=
              cancelPushes_mem t0 dv dsc s.nextSeq _ x hx
            have := hnn9 dv e9 he9
            omega
          · exact hrest_t0 x hx
      · have hnew_old : ∀ (t1 dst1 : Int),
            Entry.sentCancel t1 dv dst1 dsc ∈ s.out → t1 = t0 := by
          intro t1 dst1 h1
          obtain ⟨⟨v, hv, hvt⟩, -⟩ := P1 t1 dv dst1 dsc h1
          have hle : t1 ≤ t0 := hold_le t1 dv dst1 dsc h1
          have := hcb v hv
          omega
        intro t1 t2 d dst1 dst2 m h1 h2
        rcases List.mem_append.mp h1 with h1 | h1
        · rcases List.mem_append.mp h1 with h1 | h1
          · rcases List.mem_append.mp h2 with h2 | h2
            · rcases List.mem_append.mp h2 with h2 | h2
              · exact P2 t1 t2 d dst1 dst2 m h1 h2
              · simp only [List.mem_singleton] at h2
                cases h2
            · obtain ⟨a, -, ha⟩ := List.mem_map.mp h2
              cases ha
              exact hnew_old t1 dst1 h1
          · simp only [List.mem_singleton] at h1
            cases h1
        · obtain ⟨a, -, ha⟩ := List.mem_map.mp h1
          cases ha
          rcases List.mem_append.mp h2 with h2 | h2
          · rcases List.mem_append.mp h2 with h2 | h2
            · exact (hnew_old t2 dst2 h2).symm
            · simp only [List.mem_singleton] at h2
              cases h2
          · obtain ⟨a2, -, ha2⟩ := List.mem_map.mp h2
            cases ha2
            rfl

theorem cfgDiv_diverges_aux :
    ∀ (fuel : Nat) (n ns : Nat) (d d2 : Int) (o : Option Int) (outl : List Entry),
      (d = 1 ∧ d2 = 2) ∨ (d = 2 ∧ d2 = 1) →
      runLoop cfgDiv fuel
        { heap := [((0 : Int), n,
            { time := 0, kind := .recvAlert, device := d, desc := "x", src := o })],
          nextSeq := ns, ledger := [], out := outl } = none := by
  intro fuel
  induction fuel with
  | zero => intros; rfl
  | succ fuel ih =>
    intro n ns d d2 o outl hd
    rw [runLoop_succ_of_pop cfgDiv fuel
      { heap := [((0 : Int), n,
          { time := 0, kind := .recvAlert, device := d, desc := "x", src := o })],
        nextSeq := ns, ledger := [], out := outl }
      ((0 : Int), n, { time := 0, kind := .recvAlert, device := d, desc := "x", src := o })
      [] rfl (by show (0 : Int) < cfgDiv.length; decide)]
    rcases hd with ⟨rfl, rfl⟩ | ⟨rfl, rfl⟩
    · exact ih ns (ns + 1) 2 1 (some 1)
        ((outl ++ [Entry.recvAlert 0 1 o "x"]) ++ [Entry.sentAlert 0 1 2 "x"])
        (Or.inr ⟨rfl, rfl⟩)
    · exact ih ns (ns + 1) 1 2 (some 2)
        ((outl ++ [Entry.recvAlert 0 2 o "x"]) ++ [Entry.sentAlert 0 2 1 "x"])
        (Or.inl ⟨rfl, rfl⟩)

/-! ### Termination measure for positive delays -/

theorem lookupProp_length_le (cfg : SimulationConfig) (d : Int) :
    (lookupProp cfg.propagate d).length ≤ totalEdges cfg := by
  rw [lookupProp]
  cases hf : cfg.propagate.find? (fun e => e.1 == d) with
  | none => exact Nat.zero_le _
  | some p =>
    show p.2.length ≤ totalEdges cfg
    have hm : p.2.length ∈ cfg.propagate.map (fun q => q.2.length) :=
      List.mem_map_of_mem _ (List.mem_of_find?_eq_some hf)
    exact List.single_le_sum (fun _ _ => Nat.zero_le _) _ hm

/-- One guarded loop step strictly decreases the measure when all delays
are positive: the popped entry's weight exceeds the combined weight of
everything the dispatch pushes. -/
theorem heapMeasure_step (cfg : SimulationConfig)
    (hpos : ∀ p ∈ cfg.propagate, ∀ e9 ∈ p.2, 1 ≤ e9.2)
    (s : SimState) (e : Int × Nat × Event) (rest : List (Int × Nat × Event))
    (hpop : popMin s.heap = some (e, rest)) (hlt : e.1 < cfg.length) :
    heapMeasure cfg (handleEvent cfg e.1 e.2.2 { s with heap := rest }) <
      heapMeasure cfg s := by
  obtain ⟨hp, outl, hheap, -, -, hlen, hmem, -⟩ :=
    handleEvent_spec cfg e.1 e.2.2 { s with heap := rest }
  have hheap2 : (handleEvent cfg e.1 e.2.2 { s with heap := rest }).heap =
      hp ++ rest := hheap
  have hperm := popMin_perm s.heap e rest hpop
  have hbefore : heapMeasure cfg s =
      entryWeight cfg e + (rest.map (entryWeight cfg)).sum := by
    rw [heapMeasure, (hperm.map (entryWeight cfg)).sum_eq]
    rfl
  have hafter : heapMeasure cfg (handleEvent cfg e.1 e.2.2 { s with heap := rest }) =
      (hp.map (entryWeight cfg)).sum + (rest.map (entryWeight cfg)).sum := by
    rw [heapMeasure, hheap2, List.map_append, List.sum_append]
  have hk1 : 1 ≤ (cfg.length - e.1).toNat := by omega
  have hB : 1 ≤ totalEdges cfg + 1 := by omega
  have hx_bound : ∀ x ∈ hp,
      entryWeight cfg x ≤ (totalEdges cfg + 1) ^ ((cfg.length - e.1).toNat - 1) := by
    intro x hx
    obtain ⟨⟨e9, he9, hxe⟩, -, -⟩ := hmem x hx
    obtain ⟨p, hpP, hep⟩ := mem_lookupProp cfg.propagate _ e9 he9
    have hd1 : 1 ≤ e9.2 := hpos p hpP e9 hep
    rw [entryWeight]
    apply Nat.pow_le_pow_right hB
    omega
  have hp_len : hp.length ≤ totalEdges cfg :=
    le_trans hlen (lookupProp_length_le cfg _)
  have hsum_hp : (hp.map (entryWeight cfg)).sum ≤
      hp.length * (totalEdges cfg + 1) ^ ((cfg.length - e.1).toNat - 1) := by
    have hb : ∀ y ∈ hp.map (entryWeight cfg),
        y ≤ (totalEdges cfg + 1) ^ ((cfg.length - e.1).toNat - 1) := by
      intro y hy
      obtain ⟨x, hx, rfl⟩ := List.mem_map.mp hy
      exact hx_bound x hx
    calc (hp.map (entryWeight cfg)).sum
        ≤ (hp.map (entryWeight cfg)).length *
            (totalEdges cfg + 1) ^ ((cfg.length - e.1).toNat - 1) := by
          simpa using List.sum_le_card_nsmul _ _ hb
      _ = hp.length * (totalEdges cfg + 1) ^ ((cfg.length - e.1).toNat - 1) := by
          rw [List.length_map]
  have hstrict : hp.length * (totalEdges cfg + 1) ^ ((cfg.length - e.1).toNat - 1) <
      entryWeight cfg e := by
    rw [entryWeight]
    have hpow : (totalEdges cfg + 1) ^ (cfg.length - e.1).toNat =
        (totalEdges cfg + 1) * (totalEdges cfg + 1) ^ ((cfg.length - e.1).toNat - 1) := by
      obtain ⟨k9, hk9⟩ : ∃ k9, (cfg.length - e.1).toNat = k9 + 1 :=
        ⟨(cfg.length - e.1).toNat - 1, by omega⟩
      rw [hk9]
      simp only [Nat.add_sub_cancel]
      rw [pow_succ]
      ring
    rw [hpow]
    have hpow_pos : 0 < (totalEdges cfg + 1) ^ ((cfg.length - e.1).toNat - 1) :=
      Nat.pos_pow_of_pos _ (by omega)
    have : hp.length < totalEdges cfg + 1 := by omega
    exact Nat.mul_lt_mul_of_lt_of_le this (le_refl _) hpow_pos
  rw [hafter, hbefore]
  exact Nat.add_lt_add_right (lt_of_le_of_lt hsum_hp hstrict) _

/-- With positive delays, fuel one beyond the measure always suffices for
the loop to finish. -/
theorem runLoop_total (cfg : SimulationConfig)
    (hpos : ∀ p ∈ cfg.propagate, ∀ e9 ∈ p.2, 1 ≤ e9.2) :
    ∀ (n : Nat) (s : SimState), heapMeasure cfg s ≤ n →
      ∃ s9, runLoop cfg (n + 1) s = some s9 := by
  intro n
  induction n with
  | zero =>
    intro s hm
    cases hpop : popMin s.heap with
    | none => exact ⟨s, runLoop_succ_empty cfg 0 s hpop⟩
    | some p =>
      obtain ⟨e, rest⟩ := p
      by_cases hge : cfg.length ≤ e.1
      · exact ⟨_, runLoop_succ_break cfg 0 s e rest hpop hge⟩
      · exfalso
        have hperm := popMin_perm s.heap e rest hpop
        have : heapMeasure cfg s =
            entryWeight cfg e + (rest.map (entryWeight cfg)).sum := by
          rw [heapMeasure, (hperm.map (entryWeight cfg)).sum_eq]
          rfl
        have hw : 1 ≤ entryWeight cfg e := Nat.pos_pow_of_pos _ (by omega)
        omega
  | succ n ih =>
    intro s hm
    cases hpop : popMin s.heap with
    | none => exact ⟨s, runLoop_succ_empty cfg (n + 1) s hpop⟩
    | some p =>
      obtain ⟨e, rest⟩ := p
      by_cases hge : cfg.length ≤ e.1
      · exact ⟨_, runLoop_succ_break cfg (n + 1) s e rest hpop hge⟩
      · have hlt := lt_of_not_ge hge
        have hdec := heapMeasure_step cfg hpos s e rest hpop hlt
        obtain ⟨s9, hs9⟩ := ih (handleEvent cfg e.1 e.2.2 { s with heap := rest })
          (by omega)
        refine ⟨s9, ?_⟩
        rw [runLoop_succ_of_pop cfg (n + 1) s e rest hpop hlt]
        exact hs9

/-! ### Characters of rendered lines: the END line is unmistakable -/

theorem digitChar_isDigit (m : Nat) (h : m < 10) : (Nat.digitChar m).isDigit = true := by
  interval_cases m <;> decide

theorem toDigitsCore_digits :
    ∀ (f n : Nat) (l : List Char), (∀ c ∈ l, c.isDigit = true) →
      ∀ c ∈ Nat.toDigitsCore 10 f n l, c.isDigit = true := by
  intro f
  induction f with
  | zero =>
    intro n l hl c hc
    exact hl c hc
  | succ f ih =>
    intro n l hl c hc
    have hcons : ∀ c9 ∈ Nat.digitChar (n % 10) :: l, c9.isDigit = true := by
      intro c9 hc9
      rcases List.mem_cons.mp hc9 with rfl | hc9
      · exact digitChar_isDigit (n % 10) (Nat.mod_lt n (by omega))
      · exact hl c9 hc9
    by_cases h0 : n / 10 = 0
    · have hc3 : c ∈ (if n / 10 = 0 then Nat.digitChar (n % 10) :: l
          else Nat.toDigitsCore 10 f (n / 10) (Nat.digitChar (n % 10) :: l)) := hc
      rw [if_pos h0] at hc3
      exact hcons c hc3
    · have hc3 : c ∈ (if n / 10 = 0 then Nat.digitChar (n % 10) :: l
          else Nat.toDigitsCore 10 f (n / 10) (Nat.digitChar (n % 10) :: l)) := hc
      rw [if_neg h0] at hc3
      exact ih (n / 10) _ hcons c hc3

theorem nat_repr_digits (n : Nat) : ∀ c ∈ (Nat.repr n).data, c.isDigit = true := by
  intro c hc
  have hc2 : c ∈ Nat.toDigitsCore 10 (n + 1) n [] := hc
  exact toDigitsCore_digits (n + 1) n [] (by intro c9 hc9; cases hc9) c hc2

theorem int_toString_chars (i : Int) :
    ∀ c ∈ (toString i).data, c.isDigit = true ∨ c = '-' := by
  cases i with
  | ofNat m =>
    intro c hc
    have hc2 : c ∈ (Nat.repr m).data := hc
    exact Or.inl (nat_repr_digits m c hc2)
  | negSucc m =>
    intro c hc
    have hc2 : c ∈ ("-" ++ Nat.repr (m + 1)).data := hc
    rw [String.data_append] at hc2
    rcases List.mem_append.mp hc2 with hc2 | hc2
    · refine Or.inr ?_
      have hd : ("-" : String).data = ['-'] := rfl
      rw [hd] at hc2
      simpa using hc2
    · exact Or.inl (nat_repr_digits (m + 1) c hc2)

theorem int_toString_no_hash (i : Int) : '#' ∉ (toString i).data := by
  intro h
  rcases int_toString_chars i '#' h with h1 | h1
  · exact absurd h1 (by decide)
  · exact absurd h1 (by decide)

theorem renderSrc_no_hash (o : Option Int) : '#' ∉ (renderSrc o).data := by
  cases o with
  | some n => exact int_toString_no_hash n
  | none => decide

theorem hash_mem_left (s t : String) (h : '#' ∈ s.data) : '#' ∈ (s ++ t).data := by
  rw [String.data_append]
  exact List.mem_append_left _ h

theorem hash_mem_right (s t : String) (h : '#' ∈ t.data) : '#' ∈ (s ++ t).data := by
  rw [String.data_append]
  exact List.mem_append_right _ h

theorem endLine_render_no_hash (t : Int) :
    '#' ∉ (Entry.render (Entry.endLine t)).data := by
  intro h
  have h2 : '#' ∈ ("@" ++ toString t ++ ": END").data := h
  rw [String.data_append, String.data_append] at h2
  rcases List.mem_append.mp h2 with h2 | h2
  · rcases List.mem_append.mp h2 with h2 | h2
    · exact absurd h2 (by decide)
    · exact int_toString_no_hash t h2
  · exact absurd h2 (by decide)

theorem render_hash_of_not_end (e : Entry) (he : Entry.isEnd e = false) :
    '#' ∈ (Entry.render e).data := by
  cases e with
  | sentAlert t d dst m =>
    exact hash_mem_left _ _ (hash_mem_left _ _ (hash_mem_left _ _ (hash_mem_left _ _
      (hash_mem_left _ _ (hash_mem_right _ _ (by decide))))))
  | recvAlert t d src m =>
    exact hash_mem_left _ _ (hash_mem_left _ _ (hash_mem_left _ _ (hash_mem_left _ _
      (hash_mem_left _ _ (hash_mem_right _ _ (by decide))))))
  | sentCancel t d dst m =>
    exact hash_mem_left _ _ (hash_mem_left _ _ (hash_mem_left _ _ (hash_mem_left _ _
      (hash_mem_left _ _ (hash_mem_right _ _ (by decide))))))
  | recvCancel t d src m =>
    exact hash_mem_left _ _ (hash_mem_left _ _ (hash_mem_left _ _ (hash_mem_left _ _
      (hash_mem_left _ _ (hash_mem_right _ _ (by decide))))))
  | endLine t => cases he

/-- No rendered transcript line other than the END line can equal a
rendered END line: the former always contains a hash character, the
latter never does. -/
theorem render_ne_end (e : Entry) (he : Entry.isEnd e = false) (t : Int) :
    Entry.render e ≠ Entry.render (Entry.endLine t) := by
  intro heq
  have h1 := render_hash_of_not_end e he
  rw [heq] at h1
  exact endLine_render_no_hash t h1

/-! ### Parser lemmas -/

theorem parseLine_skip (st : ParseState) (raw : String) (h : skipLine raw = true) :
    parseLine st raw = Except.ok st := by
  rw [parseLine, if_pos h]

theorem effectiveLine_skipLine (raw : String) (h : effectiveLine raw = true) :
    skipLine raw = false := by
  rw [effectiveLine] at h
  cases hs : skipLine raw with
  | false => rfl
  | true => rw [hs] at h; cases h

theorem tagOf_of_splitWs (raw : String) (tag : String) (l : List String)
    (h : splitWs (pyStrip raw) = tag :: l) : tagOf raw = tag := by
  rw [tagOf, h]
  rfl

/-- An effective line with an unrecognised tag makes the loop body raise,
whatever the accumulated state. -/
theorem parseLine_unknown (st : ParseState) (raw : String)
    (he : effectiveLine raw = true) (ht : tagOf raw ∉ knownTags) :
    ∃ e, parseLine st raw = Except.error e := by
  have hs : skipLine raw = false := effectiveLine_skipLine raw he
  rw [parseLine, if_neg (by rw [hs]; exact Bool.false_ne_true)]
  cases hp : splitWs (pyStrip raw) with
  | nil => exact ⟨"IndexError", rfl⟩
  | cons tag l =>
    rw [tagOf_of_splitWs raw tag l hp] at ht
    simp only [knownTags, List.mem_cons, List.not_mem_nil, or_false, not_or] at ht
    obtain ⟨h1, h2, h3, h4, h5⟩ := ht
    refine ⟨"Unknown line: " ++ pyStrip raw, ?_⟩
    simp [h1, h2, h3, h4, h5]

/-- A successful loop-body step either consumed an effective LENGTH line or
left the stored horizon unchanged. -/
theorem parseLine_length (st : ParseState) (raw : String) (st9 : ParseState)
    (h : parseLine st raw = Except.ok st9)
    (hno : ¬(effectiveLine raw = true ∧ tagOf raw = "LENGTH")) :
    st9.length = st.length := by
  cases hs : skipLine raw with
  | true =>
    rw [parseLine_skip st raw hs] at h
    cases h
    rfl
  | false =>
    have he : effectiveLine raw = true := by rw [effectiveLine, hs]; rfl
    have ht : tagOf raw ≠ "LENGTH" := fun hh => hno ⟨he, hh⟩
    rw [parseLine, if_neg (by rw [hs]; exact Bool.false_ne_true)] at h
    cases hp : splitWs (pyStrip raw) with
    | nil =>
      rw [hp] at h
      cases h
    | cons tag l =>
      rw [hp] at h
      rw [tagOf_of_splitWs raw tag l hp] at ht
      have h2 : (if tag = "LENGTH" then
          match getInt (tag :: l) 1 with
          | Except.error e => Except.error e
          | Except.ok v => Except.ok { st with length := some v }
        else if tag = "DEVICE" then
          match getInt (tag :: l) 1 with
          | Except.error e => Except.error e
          | Except.ok d => Except.ok { st with devices := addDevice st.devices d }
        else if tag = "PROPAGATE" then
          match getInt (tag :: l) 1 with
          | Except.error e => Except.error e
          | Except.ok frm =>
            match getInt (tag :: l) 2 with
            | Except.error e => Except.error e
            | Except.ok dst =>
              match getInt (tag :: l) 3 with
              | Except.error e => Except.error e
              | Except.ok delay =>
                Except.ok { st with propagate := addEdge st.propagate frm (dst, delay) }
        else if tag = "ALERT" then
          match getInt (tag :: l) 1 with
          | Except.error e => Except.error e
          | Except.ok dev =>
            match getPart (tag :: l) 2 with
            | Except.error e => Except.error e
            | Except.ok dsc =>
              match getInt (tag :: l) 3 with
              | Except.error e => Except.error e
              | Except.ok t =>
                Except.ok { st with initial := st.initial ++
                  [{ time := t, kind := .raiseAlert, device := dev, desc := dsc }] }
        else if tag = "CANCEL" then
          match getInt (tag :: l) 1 with
          | Except.error e => Except.error e
          | Except.ok dev =>
            match getPart (tag :: l) 2 with
            | Except.error e => Except.error e
            | Except.ok dsc =>
              match getInt (tag :: l) 3 with
              | Except.error e => Except.error e
              | Except.ok t =>
                Except.ok { st with initial := st.initial ++
                  [{ time := t, kind := .raiseCancel, device := dev, desc := dsc }] }
        else Except.error ("Unknown line: " ++ pyStrip raw)) = Except.ok st9 := h
      rw [if_neg ht] at h2
      by_cases hd : tag = "DEVICE"
      · rw [if_pos hd] at h2
        cases hgi : getInt (tag :: l) 1 with
        | error e => rw [hgi] at h2; cases h2
        | ok d => rw [hgi] at h2; cases h2; rfl
      · rw [if_neg hd] at h2
        by_cases hpr : tag = "PROPAGATE"
        · rw [if_pos hpr] at h2
          cases hg1 : getInt (tag :: l) 1 with
          | error e => rw [hg1] at h2; cases h2
          | ok frm =>
            rw [hg1] at h2
            cases hg2 : getInt (tag :: l) 2 with
            | error e => rw [hg2] at h2; cases h2
            | ok dst =>
              rw [hg2] at h2
              cases hg3 : getInt (tag :: l) 3 with
              | error e => rw [hg3] at h2; cases h2
              | ok delay => rw [hg3] at h2; cases h2; rfl
        · rw [if_neg hpr] at h2
          by_cases hal : tag = "ALERT"
          · rw [if_pos hal] at h2
            cases hg1 : getInt (tag :: l) 1 with
            | error e => rw [hg1] at h2; cases h2
            | ok dev =>
              rw [hg1] at h2
              cases hg2 : getPart (tag :: l) 2 with
              | error e => rw [hg2] at h2; cases h2
              | ok dsc =>
                rw [hg2] at h2
                cases hg3 : getInt (tag :: l) 3 with
                | error e => rw [hg3] at h2; cases h2
                | ok t => rw [hg3] at h2; cases h2; rfl
          · rw [if_neg hal] at h2
            by_cases hca : tag = "CANCEL"
            · rw [if_pos hca] at h2
              cases hg1 : getInt (tag :: l) 1 with
              | error e => rw [hg1] at h2; cases h2
              | ok dev =>
                rw [hg1] at h2
                cases hg2 : getPart (tag :: l) 2 with
                | error e => rw [hg2] at h2; cases h2
                | ok dsc =>
                  rw [hg2] at h2
                  cases hg3 : getInt (tag :: l) 3 with
                  | error e => rw [hg3] at h2; cases h2
                  | ok t => rw [hg3] at h2; cases h2; rfl
            · rw [if_neg hca] at h2
              cases h2

theorem foldlM_parse_unknown :
    ∀ (lines : List String) (st : ParseState),
      (∃ raw ∈ lines, effectiveLine raw = true ∧ tagOf raw ∉ knownTags) →
      ∃ e, lines.foldlM parseLine st = Except.error e := by
  intro lines
  induction lines with
  | nil =>
    intro st h
    obtain ⟨raw, hmem, -⟩ := h
    cases hmem
  | cons a l ih =>
    intro st h
    obtain ⟨raw, hmem, hprops⟩ := h
    rw [List.foldlM_cons]
    rcases List.mem_cons.mp hmem with rfl | hmem
    · obtain ⟨e, he⟩ := parseLine_unknown st raw hprops.1 hprops.2
      exact ⟨e, by rw [he]; rfl⟩
    · cases hpl : parseLine st a with
      | error e => exact ⟨e, rfl⟩
      | ok st2 =>
        obtain ⟨e, he⟩ := ih st2 ⟨raw, hmem, hprops⟩
        exact ⟨e, he⟩

theorem foldlM_parse_nolength :
    ∀ (lines : List String) (st : ParseState), st.length = none →
      (∀ raw ∈ lines, ¬(effectiveLine raw = true ∧ tagOf raw = "LENGTH")) →
      (∃ e, lines.foldlM parseLine st = Except.error e) ∨
      (∃ st9, lines.foldlM parseLine st = Except.ok st9 ∧ st9.length = none) := by
  intro lines
  induction lines with
  | nil =>
    intro st hlen hno
    exact Or.inr ⟨st, rfl, hlen⟩
  | cons a l ih =>
    intro st hlen hno
    rw [List.foldlM_cons]
    cases hpl : parseLine st a with
    | error e => exact Or.inl ⟨e, by rfl⟩
    | ok st2 =>
      have hst2 : st2.length = none := by
        rw [parseLine_length st a st2 hpl (hno a (List.mem_cons_self a l))]
        exact hlen
      have := ih st2 hst2 (fun raw hr => hno raw (List.mem_cons_of_mem a hr))
      rcases this with ⟨e, he⟩ | ⟨st9, h9, h9len⟩
      · exact Or.inl ⟨e, by show l.foldlM parseLine st2 = Except.error e; exact he⟩
      · exact Or.inr ⟨st9, by show l.foldlM parseLine st2 = Except.ok st9; exact h9, h9len⟩

theorem mainSim_of_parse_error (lines : List String) (e : String)
    (h : parseInputLines lines = Except.error e) (fuel : Nat) :
    mainSim lines fuel = Except.error e := by
  rw [mainSim, h]

/-! ### Claim theorems -/

/-- Claim C2: in any completed run, every transcript line before the
terminal one carries a timestamp strictly below the horizon, and the
terminal line is the END line carrying exactly the horizon. -/
theorem claim_C2_horizon_exclusivity :
    ∀ (cfg : SimulationConfig) (fuel : Nat) (entries : List Entry),
      runEntries cfg fuel = some entries →
      ∃ body, entries = body ++ [Entry.endLine cfg.length] ∧
        (∀ e ∈ body, Entry.time e < cfg.length) ∧
        Entry.time (Entry.endLine cfg.length) = cfg.length := by
  intro cfg fuel entries h
  obtain ⟨s9, hs9, hout⟩ := Option.map_eq_some'.mp h
  refine ⟨s9.out, hout.symm, ?_, rfl⟩
  intro e he
  exact (runLoop_out_facts cfg fuel s9 hs9 e he).1

/-- Claim C8: whenever the input lines contain an effective line with an
unrecognised tag, or no effective LENGTH line at all, parsing fails with an
error instead of returning a configuration; the engine is then never run
and no transcript line is produced, whatever fuel it would have had. -/
theorem claim_C8_parse_errors :
    ∀ (lines : List String),
      ((∃ raw ∈ lines, effectiveLine raw = true ∧ tagOf raw ∉ knownTags) ∨
        (∀ raw ∈ lines, ¬(effectiveLine raw = true ∧ tagOf raw = "LENGTH"))) →
      ∃ e, parseInputLines lines = Except.error e ∧
        ∀ fuel, mainSim lines fuel = Except.error e := by
  intro lines hcond
  have hparse : ∃ e, parseInputLines lines = Except.error e := by
    rcases hcond with hun | hnolen
    · obtain ⟨e, he⟩ := foldlM_parse_unknown lines
        { length := none, devices := [], propagate := [], initial := [] } hun
      exact ⟨e, by rw [parseInputLines, he]⟩
    · rcases foldlM_parse_nolength lines
        { length := none, devices := [], propagate := [], initial := [] } rfl hnolen with
        ⟨e, he⟩ | ⟨st9, h9, h9len⟩
      · exact ⟨e, by rw [parseInputLines, he]⟩
      · refine ⟨"Missing LENGTH", ?_⟩
        rw [parseInputLines, h9]
        have h2 : (match st9.length with
            | none => (Except.error ("Missing LENGTH") : Except String SimulationConfig)
            | some len =>
              Except.ok
                { length := len,
                  propagate := st9.devices.foldl (fun P d =>
                    if (P.find? (fun p => p.1 == d)).isSome then P else P ++ [(d, [])])
                    st9.propagate,
                  initialEvents := st9.initial }) =
            Except.error ("Missing LENGTH") := by
          rw [h9len]
        exact h2
  obtain ⟨e, he⟩ := hparse
  exact ⟨e, he, fun fuel => mainSim_of_parse_error lines e he fuel⟩

theorem claim_C8_parse_errors_witness :
    ∃ e, parseInputLines ["FOO 1"] = Except.error e ∧
      ∀ fuel, mainSim ["FOO 1"] fuel = Except.error e :=
  claim_C8_parse_errors ["FOO 1"] (Or.inl (by decide))

/-- Claim C1, refuted as stated: `cfgDiv` has a non-negative horizon and
non-negative propagation delays, yet the engine loop never terminates on
it — a zero-delay cycle re-broadcasts an alert forever at time 0, so no
fuel suffices and no transcript is ever returned. -/
theorem claim_C1_counterexample :
    ((0 : Int) ≤ cfgDiv.length ∧ ∀ p ∈ cfgDiv.propagate, ∀ e9 ∈ p.2, (0 : Int) ≤ e9.2) ∧
    (∀ fuel : Nat, runSimulation cfgDiv fuel = none) := by
  refine ⟨by decide, ?_⟩
  intro fuel
  have hloop : runLoop cfgDiv fuel (initState cfgDiv) = none := by
    cases fuel with
    | zero => rfl
    | succ fuel =>
      rw [runLoop_succ_of_pop cfgDiv fuel (initState cfgDiv)
        ((0 : Int), 0,
          { time := 0, kind := .raiseAlert, device := 1, desc := "x", src := none })
        [] rfl (by show (0 : Int) < cfgDiv.length; decide)]
      exact cfgDiv_diverges_aux fuel 1 2 2 1 (some 1)
        ([] ++ [Entry.sentAlert 0 1 2 "x"]) (Or.inr ⟨rfl, rfl⟩)
  simp [runSimulation, runEntries, hloop]

/-- Claim C1 as amended: with a non-negative horizon and strictly positive
propagation delays, the engine loop terminates (some fuel completes it) and
the returned transcript ends with exactly one terminal line rendering
`@horizon: END`, which occurs nowhere else in the transcript. -/
theorem claim_C1_amended_termination_end :
    ∀ (cfg : SimulationConfig), 0 ≤ cfg.length →
      (∀ p ∈ cfg.propagate, ∀ e9 ∈ p.2, 1 ≤ e9.2) →
      ∃ (fuel : Nat) (out : List String),
        runSimulation cfg fuel = some out ∧
        out.getLast? = some (Entry.render (Entry.endLine cfg.length)) ∧
        out.count (Entry.render (Entry.endLine cfg.length)) = 1 := by
  intro cfg hlen hpos
  obtain ⟨s9, hs9⟩ := runLoop_total cfg hpos (heapMeasure cfg (initState cfg))
    (initState cfg) (le_refl _)
  refine ⟨heapMeasure cfg (initState cfg) + 1,
    (s9.out ++ [Entry.endLine cfg.length]).map Entry.render, ?_, ?_, ?_⟩
  · rw [runSimulation, runEntries, hs9]
    rfl
  · rw [List.map_append]
    exact List.getLast?_concat _
  · rw [List.map_append, List.count_append]
    have h0 : (s9.out.map Entry.render).count
        (Entry.render (Entry.endLine cfg.length)) = 0 := by
      rw [List.count_eq_zero]
      intro hmem
      obtain ⟨e, he, heq⟩ := List.mem_map.mp hmem
      have hend := (runLoop_out_facts cfg _ s9 hs9 e he).2
      exact render_ne_end e hend cfg.length heq
    rw [h0]
    simp

theorem claim_C1_amended_termination_end_witness :
    ∃ (fuel : Nat) (out : List String),
      runSimulation cfgC7 fuel = some out ∧
      out.getLast? = some (Entry.render (Entry.endLine cfgC7.length)) ∧
      out.count (Entry.render (Entry.endLine cfgC7.length)) = 1 :=
  claim_C1_amended_termination_end cfgC7
    ((by decide : (0 : Int) ≤ cfgC7.length))
    ((by decide : ∀ p ∈ cfgC7.propagate, ∀ e9 ∈ p.2, (1 : Int) ≤ e9.2))

/-- Claim C3: with the non-negative propagation delays the configuration
contract guarantees, a device never forwards the same cancellation
description at two distinct times: all its SENT CANCELLATION lines for one
description share a single timestamp. -/
theorem claim_C3_cancellation_flood_once :
    ∀ (cfg : SimulationConfig),
      (∀ p ∈ cfg.propagate, ∀ e9 ∈ p.2, 0 ≤ e9.2) →
      ∀ (fuel : Nat) (entries : List Entry),
        runEntries cfg fuel = some entries →
        ∀ (d : Int) (m : String) (t1 t2 dst1 dst2 : Int),
          Entry.sentCancel t1 d dst1 m ∈ entries →
          Entry.sentCancel t2 d dst2 m ∈ entries → t1 = t2 := by
  intro cfg hnn fuel entries h d m t1 t2 dst1 dst2 h1 h2
  obtain ⟨s9, hs9, hout⟩ := Option.map_eq_some'.mp h
  have hinv : cancelInv s9 := by
    refine runLoop_inv cfg cancelInv ?_ ?_ fuel (initState cfg) s9 ?_ hs9
    · intro e rest s hP hpop hlt
      exact cancelInv_step cfg hnn e rest s hP hpop
    · intro e rest s hP hpop
      obtain ⟨P1, P2⟩ := hP
      have hperm := popMin_perm s.heap e rest hpop
      refine ⟨?_, P2⟩
      intro t d9 dst m9 hmem
      exact ⟨(P1 t d9 dst m9 hmem).1, fun x hx =>
        (P1 t d9 dst m9 hmem).2 x (hperm.mem_iff.mpr (List.mem_cons_of_mem _ hx))⟩
    · constructor
      · intro t d9 dst m9 hmem
        rw [initState_out] at hmem
        cases hmem
      · intro u1 u2 d9 dst9 dst8 m9 hm1 hm2
        rw [initState_out] at hm1
        cases hm1
  rw [← hout] at h1 h2
  have h1b : Entry.sentCancel t1 d dst1 m ∈ s9.out := by
    rcases List.mem_append.mp h1 with h1 | h1
    · exact h1
    · simp only [List.mem_singleton] at h1
      cases h1
  have h2b : Entry.sentCancel t2 d dst2 m ∈ s9.out := by
    rcases List.mem_append.mp h2 with h2 | h2
    · exact h2
    · simp only [List.mem_singleton] at h2
      cases h2
  exact hinv.2 t1 t2 d dst1 dst2 m h1b h2b

/-- Claim C4: the ledger query `cancelled_before(device, desc, t)` returns
true iff a cancellation time is stored for `(device, desc)` and that stored
time is strictly less than `t`; consequently, a `RAISE_ALERT` event processed
at time `t` still propagates (emitting one SENT ALERT line per outgoing
edge) even when a cancellation for the same pair is recorded at exactly
time `t`. -/
theorem claim_C4_ledger_query_strict :
    (∀ (L : Ledger) (device : Int) (desc : String) (t : Int),
      cancelledBefore L device desc t = true ↔
        ∃ v, lookupCancel L device desc = some v ∧ v < t) ∧
    (∀ (cfg : SimulationConfig) (s : SimState) (device : Int) (desc : String)
        (t tm : Int) (sr : Option Int),
      lookupCancel s.ledger device desc = some t →
      (handleEvent cfg t
        { time := tm, kind := .raiseAlert, device := device, desc := desc,
          src := sr } s).out =
        s.out ++ (lookupProp cfg.propagate device).map
          (fun e => Entry.sentAlert t device e.1 desc)) := by
  constructor
  · exact cancelledBefore_iff
  · intro cfg s device desc t tm sr hv
    have hg : cancelledBefore s.ledger device desc t = false := by
      rw [cancelledBefore_of_lookup s.ledger device desc t t hv]
      simp
    rw [handleEvent_raiseAlert, if_neg (by simp [hg]), propagateAlert_eq]

/-- Claim C5: `record_cancel(device, desc, t)` stores the minimum of the
previously stored time (plus infinity when absent) and `t`; and across any
dispatch step of the run, the stored time for a fixed pair never
increases. -/
theorem claim_C5_record_min_monotone :
    (∀ (L : Ledger) (device : Int) (desc : String) (t : Int),
      lookupCancel (recordCancel L device desc t) device desc =
        some (match lookupCancel L device desc with
              | none => t
              | some prev => min t prev)) ∧
    (∀ (cfg : SimulationConfig) (t : Int) (ev : Event) (s : SimState)
        (d : Int) (m : String) (v : Int),
      lookupCancel s.ledger d m = some v →
      ∃ v9, lookupCancel (handleEvent cfg t ev s).ledger d m = some v9 ∧ v9 ≤ v) :=
  ⟨lookupCancel_recordCancel_self, handleEvent_ledger_mono⟩

/-- Claim C6: the scheduler pops same-time entries in enqueue order:
the popped entry always carries the least sequence number among same-time
heap entries, each push stamps the entry with the current counter value and
increments the counter, and every dispatch branch keeps all heap sequence
numbers below the counter (so sequence order is exactly push order, no
matter which handler pushed). -/
theorem claim_C6_fifo_tiebreak :
    (∀ (h : List (Int × Nat × Event)) (m x : Int × Nat × Event)
        (rest : List (Int × Nat × Event)),
      popMin h = some (m, rest) → x ∈ h → x.1 = m.1 → m.2.1 ≤ x.2.1) ∧
    (∀ (s : SimState) (t : Int) (ev : Event),
      (pushEvent s t ev).heap = (t, s.nextSeq, ev) :: s.heap ∧
      (pushEvent s t ev).nextSeq = s.nextSeq + 1) ∧
    (∀ (cfg : SimulationConfig) (t : Int) (ev : Event) (s : SimState),
      (∀ x ∈ s.heap, x.2.1 < s.nextSeq) →
      ∀ x ∈ (handleEvent cfg t ev s).heap,
        x.2.1 < (handleEvent cfg t ev s).nextSeq) := by
  refine ⟨?_, ?_, ?_⟩
  · intro h m x rest hpop hx hteq
    exact entryLe_seq (popMin_min h m rest hpop x hx) hteq.symm
  · intro s t ev
    exact ⟨rfl, rfl⟩
  · intro cfg t ev s hfresh x hx
    obtain ⟨hp, outl, hheap, -, hseq, -, hmem, -⟩ := handleEvent_spec cfg t ev s
    rw [hheap] at hx
    rcases List.mem_append.mp hx with hx | hx
    · exact (hmem x hx).2.2
    · exact lt_of_lt_of_le (hfresh x hx) hseq

/-- Claim C7: on the two-device scenario configuration, the simulation
returns exactly the five expected transcript lines (and any successful run,
whatever its fuel, returns exactly them). -/
theorem claim_C7_scenario :
    runSimulation cfgC7 10 = some transcriptC7 ∧
    (∀ (fuel : Nat) (r : List String),
      runSimulation cfgC7 fuel = some r → r = transcriptC7) := by
  have hrun : runSimulation cfgC7 10 = some transcriptC7 := by decide
  refine ⟨hrun, ?_⟩
  intro fuel r hr
  obtain ⟨s1, hs1, ho1⟩ := Option.map_eq_some'.mp hr
  obtain ⟨s2, hs2, ho2⟩ := Option.map_eq_some'.mp hrun
  obtain ⟨l1, hl1, he1⟩ := Option.map_eq_some'.mp hs1
  obtain ⟨l2, hl2, he2⟩ := Option.map_eq_some'.mp hs2
  have : l1 = l2 := runLoop_agree cfgC7 fuel 10 (initState cfgC7) l1 l2 hl1 hl2
  subst this
  rw [← ho1, ← ho2, ← he1, ← he2]

/-- Claim C9: the simulation is a deterministic function of its
configuration: successful runs on equal configurations yield identical
transcripts, element for element. -/
theorem claim_C9_deterministic :
    ∀ (cfg1 cfg2 : SimulationConfig), cfg1 = cfg2 →
    ∀ (f1 f2 : Nat) (o1 o2 : List String),
      runSimulation cfg1 f1 = some o1 → runSimulation cfg2 f2 = some o2 →
      o1 = o2 := by
  intro cfg1 cfg2 heq f1 f2 o1 o2 h1 h2
  subst heq
  obtain ⟨s1, hs1, ho1⟩ := Option.map_eq_some'.mp h1
  obtain ⟨s2, hs2, ho2⟩ := Option.map_eq_some'.mp h2
  obtain ⟨l1, hl1, he1⟩ := Option.map_eq_some'.mp hs1
  obtain ⟨l2, hl2, he2⟩ := Option.map_eq_some'.mp hs2
  have : l1 = l2 := runLoop_agree cfg1 f1 f2 (initState cfg1) l1 l2 hl1 hl2
  subst this
  rw [← ho1, ← ho2, ← he1, ← he2]

/-- Claim C10: a cancellation processed at time `t` for a pair whose ledger
entry is exactly `t` (as recorded by an earlier same-time cancellation) is
not suppressed: both the `RAISE_CANCEL` and the `RECV_CANCEL` branch emit
one SENT CANCELLATION line per outgoing edge; and the first same-time
cancellation, finding no entry, records exactly `t`. -/
theorem claim_C10_same_instant_cancels :
    (∀ (cfg : SimulationConfig) (s : SimState) (d : Int) (m : String) (t tm : Int),
      lookupCancel s.ledger d m = none →
      (handleEvent cfg t
        { time := tm, kind := .raiseCancel, device := d, desc := m,
          src := none } s).out =
        s.out ++ (lookupProp cfg.propagate d).map
          (fun e => Entry.sentCancel t d e.1 m) ∧
      lookupCancel (handleEvent cfg t
        { time := tm, kind := .raiseCancel, device := d, desc := m,
          src := none } s).ledger d m = some t) ∧
    (∀ (cfg : SimulationConfig) (s : SimState) (d : Int) (m : String)
        (t tm : Int) (sr : Option Int),
      lookupCancel s.ledger d m = some t →
      (handleEvent cfg t
        { time := tm, kind := .raiseCancel, device := d, desc := m,
          src := none } s).out =
        s.out ++ (lookupProp cfg.propagate d).map
          (fun e => Entry.sentCancel t d e.1 m) ∧
      (handleEvent cfg t
        { time := tm, kind := .recvCancel, device := d, desc := m,
          src := sr } s).out =
        s.out ++ Entry.recvCancel t d sr m ::
          (lookupProp cfg.propagate d).map
            (fun e => Entry.sentCancel t d e.1 m)) := by
  constructor
  · intro cfg s d m t tm hnone
    have hrec : lookupCancel (recordCancel s.ledger d m t) d m = some t := by
      rw [lookupCancel_recordCancel_self, hnone]
    have hg : cancelledBefore (recordCancel s.ledger d m t) d m t = false := by
      rw [cancelledBefore_of_lookup _ d m t t hrec]
      simp
    rw [handleEvent_raiseCancel, if_neg (by simp [hg]), propagateCancel_eq]
    refine ⟨rfl, ?_⟩
    exact hrec
  · intro cfg s d m t tm sr hsome
    have hrec : lookupCancel (recordCancel s.ledger d m t) d m = some t := by
      rw [lookupCancel_recordCancel_self, hsome]
      simp
    have hg0 : cancelledBefore s.ledger d m t = false := by
      rw [cancelledBefore_of_lookup _ d m t t hsome]
      simp
    have hg : cancelledBefore (recordCancel s.ledger d m t) d m t = false := by
      rw [cancelledBefore_of_lookup _ d m t t hrec]
      simp
    constructor
    · rw [handleEvent_raiseCancel, if_neg (by simp [hg]), propagateCancel_eq]
    · rw [handleEvent_recvCancel, if_neg (by simp [hg0]), propagateCancel_eq]
      simp

/-! ### Witnesses -/

theorem claim_C2_horizon_exclusivity_witness :
    ∃ body,
      ([ Entry.sentAlert 0 1 2 "fire",
         Entry.sentCancel 1 1 2 "fire",
         Entry.recvAlert 3 2 (some 1) "fire",
         Entry.recvCancel 4 2 (some 1) "fire",
         Entry.endLine 100 ] : List Entry) = body ++ [Entry.endLine cfgC7.length] ∧
      (∀ e ∈ body, Entry.time e < cfgC7.length) ∧
      Entry.time (Entry.endLine cfgC7.length) = cfgC7.length :=
  claim_C2_horizon_exclusivity cfgC7 10
    [ Entry.sentAlert 0 1 2 "fire",
      Entry.sentCancel 1 1 2 "fire",
      Entry.recvAlert 3 2 (some 1) "fire",
      Entry.recvCancel 4 2 (some 1) "fire",
      Entry.endLine 100 ] (by decide)

theorem claim_C3_cancellation_flood_once_witness :
    Entry.sentCancel 1 1 2 "fire" ∈
      ([ Entry.sentAlert 0 1 2 "fire",
         Entry.sentCancel 1 1 2 "fire",
         Entry.recvAlert 3 2 (some 1) "fire",
         Entry.recvCancel 4 2 (some 1) "fire",
         Entry.endLine 100 ] : List Entry) ∧ (1 : Int) = 1 :=
  ⟨by decide,
    claim_C3_cancellation_flood_once cfgC7 (by decide) 10
      [ Entry.sentAlert 0 1 2 "fire",
        Entry.sentCancel 1 1 2 "fire",
        Entry.recvAlert 3 2 (some 1) "fire",
        Entry.recvCancel 4 2 (some 1) "fire",
        Entry.endLine 100 ] (by decide) 1 "fire" 1 1 2 2 (by decide) (by decide)⟩

theorem claim_C4_ledger_query_strict_witness :
    (handleEvent cfgC7 5
      { time := 5, kind := .raiseAlert, device := 1, desc := "fire", src := none }
      stW4).out = [Entry.sentAlert 5 1 2 "fire"] := by
  simpa using
    claim_C4_ledger_query_strict.2 cfgC7 stW4 1 "fire" 5 5 none (by decide)

theorem claim_C5_record_min_monotone_witness :
    ∃ v9, lookupCancel (handleEvent cfgC7 3
      { time := 3, kind := .raiseCancel, device := 1, desc := "fire", src := none }
      stW4).ledger 1 "fire" = some v9 ∧ v9 ≤ 5 :=
  claim_C5_record_min_monotone.2 cfgC7 3
    { time := 3, kind := .raiseCancel, device := 1, desc := "fire", src := none }
    stW4 1 "fire" 5 (by decide)

theorem claim_C6_fifo_tiebreak_witness :
    (((0 : Int), (0 : Nat), evW6)).2.1 ≤ (((0 : Int), (1 : Nat), evW6)).2.1 :=
  claim_C6_fifo_tiebreak.1 [((0 : Int), (1 : Nat), evW6), ((0 : Int), (0 : Nat), evW6)]
    ((0 : Int), (0 : Nat), evW6) ((0 : Int), (1 : Nat), evW6)
    [((0 : Int), (1 : Nat), evW6)] (by decide) (by decide) (by decide)

theorem claim_C7_scenario_witness : transcriptC7 = transcriptC7 :=
  claim_C7_scenario.2 11 transcriptC7 (by decide)

theorem claim_C9_deterministic_witness : (["@5: END"] : List String) = ["@5: END"] :=
  claim_C9_deterministic cfgW9 cfgW9 rfl 1 2 ["@5: END"] ["@5: END"]
    (by decide) (by decide)

theorem claim_C10_same_instant_cancels_witness :
    (handleEvent cfgC7 2
      { time := 2, kind := .raiseCancel, device := 1, desc := "x", src := none }
      stW10).out = [Entry.sentCancel 2 1 2 "x"] ∧
    lookupCancel (handleEvent cfgC7 2
      { time := 2, kind := .raiseCancel, device := 1, desc := "x", src := none }
      stW10).ledger 1 "x" = some 2 := by
  simpa using
    claim_C10_same_instant_cancels.1 cfgC7 stW10 1 "x" 2 2 (by decide)

end Project1
